import Mathlib

/-!
Verification of the AODA accessibility-checker crawler core.

This file gives a shallow embedding, in Lean, of the crawl/scan pipeline of
the `aoda-checker` repository and proves (or refutes) the testable properties
stated in its specification.

Embedded components and their sources:

* `pyUrlparse` / `pyNormalize` — `AccessibilityCrawler._normalize_url`
  (`src/core/crawler.py`), together with the relevant behaviour of Python's
  `urllib.parse.urlparse` on which it is built.  Strings are modelled as
  `List Char`; Python's Unicode-aware `str.lower` is modelled on the ASCII
  range (`lowerChar`), which is the range exercised by URLs here.
* `crawlStep` / `crawlRun` / `runScan` — the BFS loop of
  `AccessibilityCrawler.crawl` and `_scan_page` (`src/core/crawler.py`).
  The two external engines (browser automation and the axe audit engine) and
  the HTML link extractor are modelled as an arbitrary environment `CrawlEnv`;
  the loop invariants proved below hold for every environment, hence for the
  real engines in particular.
* `check_spacer_images` — `CustomChecker.check_spacer_images`
  (`src/utils/custom_checker.py`), over parsed `<img>` elements.
* `aggregate_violations` — `ViolationAggregator.aggregate_violations`
  (`src/utils/custom_checker.py`).
* `get_user_checks` / `defaultChecks` — `CheckConfigRepository.get_user_checks`
  and `get_default_check_configurations` (`src/database/check_repository.py`).
-/

/-! ### ASCII character model

All character classifications below are phrased on `Char.toNat` so that the
facts we need about them reduce to arithmetic.  Code points used:
tab 9, LF 10, CR 13, space 32, `#` 35, `+` 43, `-` 45, `.` 46, `/` 47,
digits 48–57, `:` 58, `?` 63, `A`–`Z` 65–90, `a`–`z` 97–122.
-/

/-- Upper/lower ASCII letter pairs; the table behind the model of Python's
`str.lower` (`.lower()` calls in `_normalize_url` and `check_spacer_images`). -/
def lowerPairs : List (Char × Char) :=
  [('A', 'a'), ('B', 'b'), ('C', 'c'), ('D', 'd'), ('E', 'e'), ('F', 'f'),
   ('G', 'g'), ('H', 'h'), ('I', 'i'), ('J', 'j'), ('K', 'k'), ('L', 'l'),
   ('M', 'm'), ('N', 'n'), ('O', 'o'), ('P', 'p'), ('Q', 'q'), ('R', 'r'),
   ('S', 's'), ('T', 't'), ('U', 'u'), ('V', 'v'), ('W', 'w'), ('X', 'x'),
   ('Y', 'y'), ('Z', 'z')]

/-- ASCII lowering of one character (model of `str.lower`, restricted to the
ASCII range actually occurring in URLs and attribute values). -/
def lowerChar (c : Char) : Char := (lowerPairs.lookup c).getD c

/-- `str.lower` on a whole string. -/
def pyLower (s : List Char) : List Char := s.map lowerChar

/-- Characters removed anywhere in a URL by `urllib.parse`
(`_UNSAFE_URL_BYTES_TO_REMOVE` = tab, CR, LF). -/
def isUnsafeChar (c : Char) : Bool := c.toNat = 9 || c.toNat = 13 || c.toNat = 10

/-- C0 control characters and space, stripped from the front of a URL by
`urllib.parse` (`_WHATWG_C0_CONTROL_OR_SPACE`). -/
def isC0orSpace (c : Char) : Bool := c.toNat ≤ 32

/-- Characters allowed after the first character of a URL scheme
(`urllib.parse.scheme_chars`: letters, digits, `+`, `-`, `.`). -/
def isSchemeChar (c : Char) : Bool :=
  (65 ≤ c.toNat && c.toNat ≤ 90) || (97 ≤ c.toNat && c.toNat ≤ 122) ||
  (48 ≤ c.toNat && c.toNat ≤ 57) || c.toNat = 43 || c.toNat = 45 || c.toNat = 46

/-- ASCII letter test (`url[0].isascii() and url[0].isalpha()` in the scheme
recognition of `urllib.parse.urlsplit`). -/
def isAsciiAlpha (c : Char) : Bool :=
  (65 ≤ c.toNat && c.toNat ≤ 90) || (97 ≤ c.toNat && c.toNat ≤ 122)

/-- Delimiters ending the network-location part in `urllib.parse._splitnetloc`
(`/`, `?`, `#`). -/
def isNetEnd (c : Char) : Bool := c.toNat = 47 || c.toNat = 63 || c.toNat = 35

/-! ### Model of `urllib.parse.urlparse` (scheme/netloc/path components)

`AccessibilityCrawler._normalize_url` consumes only the `scheme`, `netloc`
and `path` attributes of the parse result, so only those are modelled.
`urlsplit` first strips leading C0-control/space characters and removes
tab/CR/LF everywhere, then recognises a scheme (`letter(letter|digit|+-.)*`
before the first `:`), then a `//…` netloc (up to `/`, `?` or `#`, rejecting
unbalanced square brackets with a `ValueError`, which `_normalize_url` turns
into `None`), then splits off fragment and query; `urlparse` finally splits
`;parameters` from the last path segment, but only when the scheme is in
`uses_params`. -/

/-- Index of the first occurrence of `c` (Python `str.find`). -/
def findChar (c : Char) : List Char → Option Nat
  | [] => none
  | x :: xs => if x = c then some 0 else (findChar c xs).map (· + 1)

/-- Everything strictly before the first occurrence of `c`
(Python `str.split(c, 1)[0]`). -/
def takeUntilChar (c : Char) : List Char → List Char
  | [] => []
  | x :: xs => if x = c then [] else x :: takeUntilChar c xs

/-- Split around the last `'/'`: `some (before, after)`, or `none` when the
string has no slash. -/
def splitLastSlash : List Char → Option (List Char × List Char)
  | [] => none
  | c :: cs =>
    match splitLastSlash cs with
    | some (a, b) => some (c :: a, b)
    | none => if c = '/' then some ([], cs) else none

/-- `urllib.parse._splitparams`, guarded by `';' in url` as in `urlparse`:
drop a `;parameters` suffix of the last path segment. -/
def dropParams (s : List Char) : List Char :=
  if ';' ∈ s then
    match splitLastSlash s with
    | some (a, b) => if ';' ∈ b then a ++ '/' :: takeUntilChar ';' b else s
    | none => takeUntilChar ';' s
  else s

/-- Strip leading C0-control/space characters
(`url.lstrip(_WHATWG_C0_CONTROL_OR_SPACE)`). -/
def wstrip (s : List Char) : List Char :=
  s.dropWhile isC0orSpace

/-- The sanitisation `urlsplit` applies before parsing proper. -/
def sanitizeUrl (s : List Char) : List Char :=
  (wstrip s).filter (fun c => !isUnsafeChar c)

/-- Scheme recognition of `urlsplit`: split at the first `:` when everything
before it is a well-formed scheme, lower-casing the scheme. -/
def splitScheme (u : List Char) : List Char × List Char :=
  match findChar ':' u with
  | none => ([], u)
  | some i =>
    if 0 < i ∧ (u.take 1).all isAsciiAlpha ∧ ((u.take i).drop 1).all isSchemeChar
    then (pyLower (u.take i), u.drop (i + 1))
    else ([], u)

/-- `urllib.parse.uses_params` (CPython 3.11): the schemes for which
`urlparse` splits `;parameters` off the last path segment. -/
def uses_params : List (List Char) :=
  ["".toList, "ftp".toList, "hdl".toList, "prospero".toList, "http".toList,
   "imap".toList, "https".toList, "shttp".toList, "rtsp".toList,
   "rtsps".toList, "rtspu".toList, "sip".toList, "sips".toList,
   "mms".toList, "sftp".toList, "tel".toList]

/-- The components of a parsed URL used by `_normalize_url`. -/
structure UrlParts where
  scheme : List Char
  netloc : List Char
  path : List Char
deriving Repr, DecidableEq

/-- `urllib.parse.urlparse`, restricted to the scheme/netloc/path components;
`none` models the `ValueError` raised on unbalanced brackets in the netloc. -/
def pyUrlparse (url : List Char) : Option UrlParts :=
  let u := sanitizeUrl url
  let sp := splitScheme u
  let nl :=
    if sp.2.take 2 = ['/', '/']
    then ((sp.2.drop 2).takeWhile (fun c => !isNetEnd c),
          (sp.2.drop 2).dropWhile (fun c => !isNetEnd c))
    else ([], sp.2)
  if ('[' ∈ nl.1 ∧ ']' ∉ nl.1) ∨ (']' ∈ nl.1 ∧ '[' ∉ nl.1) then none
  else
    let u4 := takeUntilChar '?' (takeUntilChar '#' nl.2)
    some ⟨sp.1, nl.1, if sp.1 ∈ uses_params then dropParams u4 else u4⟩

/-! ### `AccessibilityCrawler._normalize_url` -/

/-- `path.rstrip('/')`. -/
def rstripSlash (s : List Char) : List Char :=
  (s.reverse.dropWhile (fun c => c = '/')).reverse

/-- Scheme normalisation: `'https' if parsed.scheme in ['http', 'https'] else
parsed.scheme`. -/
def normScheme (s : List Char) : List Char :=
  if s = "http".toList ∨ s = "https".toList then "https".toList else s

/-- Netloc normalisation: lower-case, then strip one leading `www.`. -/
def normNetloc (s : List Char) : List Char :=
  let n := pyLower s
  if "www.".toList.isPrefixOf n then n.drop 4 else n

/-- Path normalisation: strip trailing slashes from a non-root path, use `/`
for an empty path. -/
def normPath (p : List Char) : List Char :=
  if p ≠ [] ∧ p ≠ ['/'] then rstripSlash p
  else if p = [] then ['/'] else p

/-- Reassembly `f"{scheme}://{netloc}{path}"`. -/
def buildUrl (scheme netloc path : List Char) : List Char :=
  scheme ++ ':' :: '/' :: '/' :: netloc ++ path

/-- `AccessibilityCrawler._normalize_url` (`src/core/crawler.py`): parse, then
normalise scheme, netloc and path, dropping query and fragment; `none` models
the `except: return None` branch. -/
def pyNormalize (url : List Char) : Option (List Char) :=
  match pyUrlparse url with
  | none => none
  | some p => some (buildUrl (normScheme p.scheme) (normNetloc p.netloc) (normPath p.path))

/-! ### Data model (`src/models/__init__.py`)

Timestamps (`scan_time`, `start_time`, `end_time`) and the generated
`scan_id` come from the system clock and `uuid` and are omitted.  The
screenshot payloads attached to violation nodes (`enable_screenshots`) only
decorate the node dictionaries and are likewise omitted; `nodes` are not
inspected by any property below. -/

/-- `AccessibilityViolation`: one rule violation as stored on a page result. -/
structure AccessibilityViolation where
  id : String
  impact : String
  description : String := ""
  help : String := ""
  help_url : String := ""
  tags : List String := []
deriving Repr, DecidableEq

/-- `PageResult`: result of scanning a single page. -/
structure PageResult where
  url : String
  title : Option String := none
  status_code : Option Nat := none
  violations : List AccessibilityViolation := []
  passes : Nat := 0
  incomplete : Nat := 0
  inapplicable : Nat := 0
  error : Option String := none
deriving Repr, DecidableEq

/-- `ScanResult`: whole-run outcome with running totals. -/
structure ScanResult where
  start_url : String
  pages_scanned : Nat := 0
  pages_with_violations : Nat := 0
  total_violations : Nat := 0
  page_results : List PageResult := []
  status : String := "in_progress"
  max_pages : Nat
  max_depth : Nat
deriving Repr, DecidableEq

/-- `ScanRequest` fields consumed by the crawler.  (`same_domain_only` and
`restrict_to_path` only parameterise `_should_crawl`, which sits behind the
link-extraction environment below.) -/
structure ScanRequest where
  url : String
  max_pages : Nat := 50
  max_depth : Nat := 3
deriving Repr, DecidableEq

/-! ### The crawl loop (`AccessibilityCrawler.crawl` / `_scan_page`)

The browser engine, the axe audit engine and the HTML link extractor are
external; a `CrawlEnv` assigns to every URL the outcome the external world
would produce for it.  All loop theorems below are proved for an arbitrary
environment, so they cover every behaviour of the real engines. -/

/-- What the external world yields for one URL: either the navigation raises
(`navError`), or the page loads and the audit engine either raises
(`axeError`) or reports its lists. -/
structure PageOutcome where
  navError : Option String := none
  statusCode : Option Nat := none
  title : String := ""
  content : String := ""
  axeError : Option String := none
  axeViolations : List AccessibilityViolation := []
  passes : Nat := 0
  incomplete : Nat := 0
  inapplicable : Nat := 0

/-- External environment of one crawl: page outcomes, plus the filtered and
normalised link list `_extract_links_from_html` would return for each page. -/
structure CrawlEnv where
  page : String → PageOutcome
  links : String → List String

/-- `_scan_page`: returns the `PageResult` and the captured page content.
On a navigation error nothing further runs (no title, no content, no audit);
on an audit-engine error the title and content were already captured but no
violations are recorded.  Both kinds of exception are caught and stored in
`page_result.error`. -/
def scanPage (env : CrawlEnv) (url : String) : PageResult × Option String :=
  let po := env.page url
  match po.navError with
  | some e => ({ url := url, error := some e }, none)
  | none =>
    match po.axeError with
    | some e =>
      ({ url := url, title := some po.title, status_code := po.statusCode,
         error := some e }, some po.content)
    | none =>
      ({ url := url, title := some po.title, status_code := po.statusCode,
         violations := po.axeViolations, passes := po.passes,
         incomplete := po.incomplete, inapplicable := po.inapplicable },
       some po.content)

/-- Crawler state: the BFS queue `to_visit` of `(url, depth)` pairs, the
visited URLs (a Python `set`; modelled as the list of visits in dequeue
order, whose first components are pairwise distinct), and the accumulating
`ScanResult`. -/
structure CrawlState where
  toVisit : List (String × Nat)
  visitedTr : List (String × Nat)
  result : ScanResult
deriving Repr

/-- The enqueue loop at the end of a crawl iteration: append each extracted
link at the child depth unless it is already visited or already queued. -/
def enqueueLinks (visited : List String) (q : List (String × Nat))
    (links : List String) (d : Nat) : List (String × Nat) :=
  links.foldl
    (fun acc link =>
      if link ∈ visited ∨ link ∈ acc.map Prod.fst then acc else acc ++ [(link, d)])
    q

/-- One iteration of the `while self.to_visit and len(self.visited_urls) <
self.max_pages` loop; `none` when the loop guard fails. -/
def crawlStep (env : CrawlEnv) (st : CrawlState) : Option CrawlState :=
  match st.toVisit with
  | [] => none
  | (url, depth) :: rest =>
    if st.result.max_pages ≤ st.visitedTr.length then none
    else if url ∈ st.visitedTr.map Prod.fst then
      some { st with toVisit := rest }
    else if st.result.max_depth < depth then
      some { st with toVisit := rest }
    else
      let pc := scanPage env url
      let res := st.result
      let res' : ScanResult :=
        { res with
          page_results := res.page_results ++ [pc.1]
          pages_scanned := res.pages_scanned + 1
          pages_with_violations :=
            res.pages_with_violations + (if 0 < pc.1.violations.length then 1 else 0)
          total_violations := res.total_violations + pc.1.violations.length }
      let visited' := st.visitedTr ++ [(url, depth)]
      let doLinks : Bool :=
        decide (depth < res.max_depth) && pc.1.error.isNone &&
        (match pc.2 with | some c => !(c == "") | none => false)
      let q :=
        if doLinks then enqueueLinks (visited'.map Prod.fst) rest (env.links url) (depth + 1)
        else rest
      some { toVisit := q, visitedTr := visited', result := res' }

/-- Iterate `crawlStep` until the guard fails (or fuel runs out; every claim
about the loop below is proved for all fuel values). -/
def crawlRun (env : CrawlEnv) : Nat → CrawlState → CrawlState
  | 0, st => st
  | n + 1, st =>
    match crawlStep env st with
    | none => st
    | some st' => crawlRun env n st'

/-- `pyNormalize` on ordinary strings. -/
def pyNormalizeS (s : String) : Option String :=
  (pyNormalize s.toList).map List.asString

/-- Crawler construction: seed the queue with the normalised start URL at
depth 0 (`_normalize_url(self.start_url) or self.start_url`). -/
def initState (req : ScanRequest) : CrawlState :=
  { toVisit := [((pyNormalizeS req.url).getD req.url, 0)]
    visitedTr := []
    result := { start_url := req.url, max_pages := req.max_pages, max_depth := req.max_depth } }

/-- A whole scan: run the loop, then mark the result `completed` (exceptions
raised by page scans or by the audit engine are caught inside `_scan_page`,
so the loop itself finishes normally). -/
def runScan (env : CrawlEnv) (req : ScanRequest) (fuel : Nat) : ScanResult :=
  let final := crawlRun env fuel (initState req)
  { final.result with status := "completed" }

/-! ### Check configuration (`src/database/check_repository.py`,
`src/database/models.py`) -/

/-- `CheckSeverity` enum. -/
inductive CheckSeverity where
  | error
  | warning
  | alert
  | disabled
deriving Repr, DecidableEq

/-- `.value` of the enum member. -/
def CheckSeverity.value : CheckSeverity → String
  | .error => "error"
  | .warning => "warning"
  | .alert => "alert"
  | .disabled => "disabled"

/-- A `check_configurations` row (global defaults; `id` is the DB-assigned
primary key, timestamps omitted). -/
structure CheckConfiguration where
  id : Nat := 0
  check_id : String
  check_name : String
  description : Option String := none
  enabled : Bool := true
  severity : CheckSeverity := .error
  wcag_criterion : Option String := none
  wcag_level : Option String := none
  aoda_required : Bool := false
  wcag21_only : Bool := false
  check_type : String := "axe"
  help_url : Option String := none
  tags : List String := []
deriving Repr, DecidableEq

/-- A `user_check_configurations` row (per-user override, keyed by
`(user_id, check_id)`). -/
structure UserCheckConfiguration where
  user_id : Nat
  check_id : String
  enabled : Bool := true
  severity : CheckSeverity := .error
deriving Repr, DecidableEq

/-- One entry of the list returned by `get_user_checks`. -/
structure UserCheckView where
  id : Nat
  check_id : String
  check_name : String
  description : Option String
  enabled : Bool
  severity : String
  wcag_criterion : Option String
  wcag_level : Option String
  aoda_required : Bool
  wcag21_only : Bool
  check_type : String
  help_url : Option String
  has_user_override : Bool
deriving Repr, DecidableEq

/-- The override dictionary `{uc.check_id: uc}` built from the rows of one
user; with duplicate rows the later row wins, as in a Python dict
comprehension. -/
def overrideFor (ovs : List UserCheckConfiguration) (uid : Nat) (cid : String) :
    Option UserCheckConfiguration :=
  ((ovs.filter (fun uc => uc.user_id == uid)).reverse).find? (fun uc => uc.check_id == cid)

/-- `CheckConfigRepository.get_user_checks`: every global check, with
`enabled`/`severity` taken from the user's override when one exists and all
other (metadata) fields always taken from the global row. -/
def get_user_checks (base : List CheckConfiguration)
    (ovs : List UserCheckConfiguration) (uid : Nat) : List UserCheckView :=
  base.map fun check =>
    let uo := overrideFor ovs uid check.check_id
    { id := check.id
      check_id := check.check_id
      check_name := check.check_name
      description := check.description
      enabled := match uo with | some u => u.enabled | none => check.enabled
      severity := match uo with | some u => u.severity.value | none => check.severity.value
      wcag_criterion := check.wcag_criterion
      wcag_level := check.wcag_level
      aoda_required := check.aoda_required
      wcag21_only := check.wcag21_only
      check_type := check.check_type
      help_url := check.help_url
      has_user_override := uo.isSome }

/-! ### `ViolationAggregator` (`src/utils/custom_checker.py`)

The aggregator works on raw violation dictionaries.  A `VDict` keeps the two
keys the aggregator reads or writes (`id`, `impact`) and an opaque bag for
every other key, which the aggregator never touches.  A `CfgEntry` models one
configuration dictionary, with `none` meaning "key absent". -/

/-- A raw violation dictionary as passed to `aggregate_violations`. -/
structure VDict where
  id : String
  impact : Option String := none
  rest : List (String × String) := []
deriving Repr, DecidableEq

/-- One entry of the `check_configs` mapping. -/
structure CfgEntry where
  enabled : Option Bool := none
  severity : Option String := none
deriving Repr, DecidableEq

/-- The inner `severity_to_impact` mapping with its
`.get(severity, violation.get('impact', 'moderate'))` fallback. -/
def severityToImpact (s : String) (orig : Option String) : String :=
  if s = "error" then "serious"
  else if s = "warning" then "moderate"
  else if s = "alert" then "minor"
  else orig.getD "moderate"

/-- The per-violation body of `aggregate_violations`: look up the config
(`{}` when the rule id is unknown), drop the violation when `enabled` is
false, remap its impact when a `severity` key is configured. -/
def applyConfig (cfgs : List (String × CfgEntry)) (v : VDict) : Option VDict :=
  let config := (cfgs.lookup v.id).getD {}
  if (config.enabled.getD true) = false then none
  else
    match config.severity with
    | some s => some { v with impact := some (severityToImpact s v.impact) }
    | none => some v

/-- `ViolationAggregator.aggregate_violations`: axe violations then custom
violations, each filtered and remapped by the same configuration logic. -/
def aggregate_violations (cfgs : List (String × CfgEntry))
    (axe custom : List VDict) : List VDict :=
  (axe ++ custom).filterMap (applyConfig cfgs)

/-! ### `get_default_check_configurations` (`src/database/check_repository.py`) -/

/-- The seeded global check table.  `color-contrast-enhanced` is the one
check seeded with `enabled := false`. -/
def defaultChecks : List CheckConfiguration :=
  [ { check_id := "image-alt",
      check_name := "Images must have alternative text",
      description := some "Ensures <img> elements have alternate text or a role of none or presentation",
      enabled := true, severity := .error,
      wcag_criterion := some "1.1.1", wcag_level := some "A",
      aoda_required := true, wcag21_only := false, check_type := "axe",
      help_url := some "https://dequeuniversity.com/rules/axe/4.4/image-alt",
      tags := ["cat.text-alternatives", "wcag2a", "wcag111", "section508"] },
    { check_id := "spacer-image-alt",
      check_name := "Decorative spacer images should have empty alt attribute",
      description := some "Ensures decorative spacer images (1px, transparent.gif, spacer images) have alt=\"\" to hide them from screen readers. Spacer images with descriptive alt text are flagged.",
      enabled := true, severity := .error,
      wcag_criterion := some "1.1.1", wcag_level := some "A",
      aoda_required := true, wcag21_only := false, check_type := "custom",
      help_url := some "https://www.w3.org/WAI/WCAG21/Understanding/non-text-content.html",
      tags := ["cat.text-alternatives", "wcag2a", "wcag111"] },
    { check_id := "empty-heading",
      check_name := "Headings must not be empty",
      description := some "Ensures headings have discernible text",
      enabled := true, severity := .error,
      wcag_criterion := some "2.4.6", wcag_level := some "AA",
      aoda_required := true, wcag21_only := false, check_type := "axe",
      help_url := some "https://dequeuniversity.com/rules/axe/4.4/empty-heading",
      tags := ["cat.name-role-value", "wcag2aa", "wcag246"] },
    { check_id := "heading-order",
      check_name := "Heading levels should only increase by one",
      description := some "Ensures heading levels are in a sequentially descending order",
      enabled := true, severity := .alert,
      wcag_criterion := some "1.3.1", wcag_level := some "A",
      aoda_required := true, wcag21_only := false, check_type := "axe",
      help_url := some "https://dequeuniversity.com/rules/axe/4.4/heading-order",
      tags := ["cat.semantics", "wcag2a", "wcag131"] },
    { check_id := "p-as-heading",
      check_name := "Bold, italic text and font-size should not be used for styling p elements as headings",
      description := some "Detects paragraphs that look like headings",
      enabled := true, severity := .alert,
      wcag_criterion := some "1.3.1", wcag_level := some "A",
      aoda_required := true, wcag21_only := false, check_type := "axe",
      help_url := some "https://dequeuniversity.com/rules/axe/4.4/p-as-heading",
      tags := ["cat.semantics", "wcag2a", "wcag131"] },
    { check_id := "color-contrast",
      check_name := "Elements must have sufficient color contrast",
      description := some "Ensures the contrast between foreground and background colors meets WCAG 2 AA contrast ratio thresholds",
      enabled := true, severity := .error,
      wcag_criterion := some "1.4.3", wcag_level := some "AA",
      aoda_required := true, wcag21_only := false, check_type := "axe",
      help_url := some "https://dequeuniversity.com/rules/axe/4.4/color-contrast",
      tags := ["cat.color", "wcag2aa", "wcag143"] },
    { check_id := "color-contrast-enhanced",
      check_name := "Elements must have sufficient color contrast (enhanced)",
      description := some "Ensures the contrast between foreground and background colors meets WCAG 2 AAA contrast ratio thresholds",
      enabled := false, severity := .warning,
      wcag_criterion := some "1.4.6", wcag_level := some "AAA",
      aoda_required := false, wcag21_only := false, check_type := "axe",
      help_url := some "https://dequeuniversity.com/rules/axe/4.4/color-contrast-enhanced",
      tags := ["cat.color", "wcag2aaa", "wcag146"] },
    { check_id := "frame-title",
      check_name := "Frames must have an accessible name",
      description := some "Ensures <iframe> and <frame> elements have an accessible name",
      enabled := true, severity := .error,
      wcag_criterion := some "4.1.2", wcag_level := some "A",
      aoda_required := true, wcag21_only := false, check_type := "axe",
      help_url := some "https://dequeuniversity.com/rules/axe/4.4/frame-title",
      tags := ["cat.text-alternatives", "wcag2a", "wcag412", "section508"] },
    { check_id := "noscript-element",
      check_name := "Noscript elements should provide alternative content",
      description := some "Detects noscript elements that may indicate JavaScript dependency",
      enabled := true, severity := .alert,
      wcag_criterion := some "4.1.2", wcag_level := some "A",
      aoda_required := false, wcag21_only := false, check_type := "custom",
      help_url := some "https://www.w3.org/TR/WCAG20-TECHS/G173.html",
      tags := ["cat.parsing", "best-practice"] },
    { check_id := "link-name",
      check_name := "Links must have discernible text",
      description := some "Ensures links have discernible text",
      enabled := true, severity := .error,
      wcag_criterion := some "2.4.4", wcag_level := some "A",
      aoda_required := true, wcag21_only := false, check_type := "axe",
      help_url := some "https://dequeuniversity.com/rules/axe/4.4/link-name",
      tags := ["cat.name-role-value", "wcag2a", "wcag244", "section508"] },
    { check_id := "label",
      check_name := "Form elements must have labels",
      description := some "Ensures every form element has a label",
      enabled := true, severity := .error,
      wcag_criterion := some "3.3.2", wcag_level := some "A",
      aoda_required := true, wcag21_only := false, check_type := "axe",
      help_url := some "https://dequeuniversity.com/rules/axe/4.4/label",
      tags := ["cat.forms", "wcag2a", "wcag332", "section508"] },
    { check_id := "document-title",
      check_name := "Documents must have a title element",
      description := some "Ensures each HTML document contains a non-empty <title> element",
      enabled := true, severity := .error,
      wcag_criterion := some "2.4.2", wcag_level := some "A",
      aoda_required := true, wcag21_only := false, check_type := "axe",
      help_url := some "https://dequeuniversity.com/rules/axe/4.4/document-title",
      tags := ["cat.text-alternatives", "wcag2a", "wcag242"] },
    { check_id := "html-has-lang",
      check_name := "HTML element must have a lang attribute",
      description := some "Ensures every HTML document has a lang attribute",
      enabled := true, severity := .error,
      wcag_criterion := some "3.1.1", wcag_level := some "A",
      aoda_required := true, wcag21_only := false, check_type := "axe",
      help_url := some "https://dequeuniversity.com/rules/axe/4.4/html-has-lang",
      tags := ["cat.language", "wcag2a", "wcag311"] },
    { check_id := "bypass",
      check_name := "Page must have a skip link",
      description := some "Ensures each page has at least one mechanism for a keyboard user to bypass navigation",
      enabled := true, severity := .error,
      wcag_criterion := some "2.4.1", wcag_level := some "A",
      aoda_required := true, wcag21_only := false, check_type := "axe",
      help_url := some "https://dequeuniversity.com/rules/axe/4.4/bypass",
      tags := ["cat.keyboard", "wcag2a", "wcag241", "section508"] },
    { check_id := "aria-allowed-attr",
      check_name := "ARIA attributes must be allowed for element's role",
      description := some "Ensures ARIA attributes are allowed for an element's role",
      enabled := true, severity := .error,
      wcag_criterion := some "4.1.2", wcag_level := some "A",
      aoda_required := true, wcag21_only := false, check_type := "axe",
      help_url := some "https://dequeuniversity.com/rules/axe/4.4/aria-allowed-attr",
      tags := ["cat.aria", "wcag2a", "wcag412"] },
    { check_id := "aria-required-attr",
      check_name := "ARIA roles must have required attributes",
      description := some "Ensures elements with ARIA roles have all required ARIA attributes",
      enabled := true, severity := .error,
      wcag_criterion := some "4.1.2", wcag_level := some "A",
      aoda_required := true, wcag21_only := false, check_type := "axe",
      help_url := some "https://dequeuniversity.com/rules/axe/4.4/aria-required-attr",
      tags := ["cat.aria", "wcag2a", "wcag412"] },
    { check_id := "aria-valid-attr",
      check_name := "ARIA attributes must be valid",
      description := some "Ensures attributes that begin with aria- are valid ARIA attributes",
      enabled := true, severity := .error,
      wcag_criterion := some "4.1.2", wcag_level := some "A",
      aoda_required := true, wcag21_only := false, check_type := "axe",
      help_url := some "https://dequeuniversity.com/rules/axe/4.4/aria-valid-attr",
      tags := ["cat.aria", "wcag2a", "wcag412"] },
    { check_id := "aria-valid-attr-value",
      check_name := "ARIA attribute values must be valid",
      description := some "Ensures all ARIA attributes have valid values",
      enabled := true, severity := .error,
      wcag_criterion := some "4.1.2", wcag_level := some "A",
      aoda_required := true, wcag21_only := false, check_type := "axe",
      help_url := some "https://dequeuniversity.com/rules/axe/4.4/aria-valid-attr-value",
      tags := ["cat.aria", "wcag2a", "wcag412"] } ]

/-! ### `CustomChecker.check_spacer_images` (`src/utils/custom_checker.py`)

The checker operates on the `<img>` elements of the markup as parsed by the
external HTML library; an `ImgTag` models one parsed element with the
attributes the check reads.  The selector helper `_get_selector` is modelled
for its id/class/tag-name branches; the positional `nth-of-type` fallback
needs the surrounding document tree and only affects the selector string,
which no property below inspects. -/

/-- One parsed `<img>` element.  Absent attributes: `src`/`width`/`height`
default to `''` (`img.get(..., '')`), `alt` to `none` (`img.get('alt')`). -/
structure ImgTag where
  src : String := ""
  alt : Option String := none
  width : String := ""
  height : String := ""
  idAttr : Option String := none
  classes : List String := []
deriving Repr, DecidableEq

/-- `re.search` of a literal pattern: substring containment. -/
def hasSub (pat : List Char) : List Char → Bool
  | [] => pat.isEmpty
  | c :: rest => pat.isPrefixOf (c :: rest) || hasSub pat rest

/-- The `spacer_patterns` literals (the regex escapes `dot\.gif` and
`clear\.gif` denote literal dots). -/
def spacerPatterns : List (List Char) :=
  ["spacer".toList, "blank".toList, "transparent".toList, "pixel".toList,
   "1x1".toList, "dot.gif".toList, "clear.gif".toList, "shim".toList]

/-- The `is_spacer` classification: spacer-named source (searched on the
lower-cased `src`) or a width/height attribute equal to `'1'`.  (The
source's comparisons of the bs4 string attributes with the integer `1` can
never be true and are dropped.) -/
def isSpacerImg (img : ImgTag) : Bool :=
  (spacerPatterns.any fun pat => hasSub pat (pyLower img.src.toList)) ||
  (img.width == "1" || img.height == "1")

/-- `_get_selector`: prefer `#id`, then `tag.class`, then the tag name. -/
def getSelector (img : ImgTag) : String :=
  match img.idAttr with
  | some i => "#" ++ i
  | none =>
    match img.classes with
    | c :: _ => "img." ++ c
    | [] => "img"

/-- One violation dictionary produced by a custom check (the `html` and
`failureSummary` excerpt strings only restate the element and are omitted). -/
structure CustomViolation where
  id : String
  impact : String
  description : String
  help : String
  helpUrl : String
  tags : List String
  target : String
deriving Repr, DecidableEq

/-- The violation emitted for one offending spacer image. -/
def spacerViolation (img : ImgTag) : CustomViolation :=
  { id := "spacer-image-alt"
    impact := "moderate"
    description := "Decorative spacer images should have empty alt attribute (alt=\"\")"
    help := "Decorative/spacer images should have alt=\"\" to hide them from screen readers, not descriptive text"
    helpUrl := "https://www.w3.org/WAI/WCAG21/Understanding/non-text-content.html"
    tags := ["cat.text-alternatives", "wcag2a", "wcag111", "custom"]
    target := getSelector img }

/-- `CustomChecker.check_spacer_images`: flag every detected spacer image
whose `alt` attribute is not exactly the empty string (a missing `alt`
compares unequal to `''` and is flagged). -/
def check_spacer_images (imgs : List ImgTag) : List CustomViolation :=
  imgs.filterMap fun img =>
    if isSpacerImg img ∧ img.alt ≠ some "" then some (spacerViolation img) else none

/-! ### Concrete scan scenarios used by the claim theorems -/

/-- Request for the disabled-rule scenario. -/
def disabledRuleReq : ScanRequest :=
  { url := "https://example.com/", max_pages := 50, max_depth := 3 }

/-- Environment in which the audit engine reports exactly one violation of
the globally disabled rule `color-contrast-enhanced` on every page. -/
def disabledRuleEnv : CrawlEnv :=
  { page := fun _ =>
      { axeViolations := [{ id := "color-contrast-enhanced", impact := "serious" }] }
    links := fun _ => [] }

/-- Request for the seed-navigation-timeout scenario. -/
def navFailReq : ScanRequest :=
  { url := "https://example.com/page", max_pages := 50, max_depth := 3 }

/-- Environment in which every page navigation times out. -/
def navFailEnv : CrawlEnv :=
  { page := fun _ => { navError := some "Timeout 30000ms exceeded" }
    links := fun _ => [] }

/-- A sample global row used by the resolution witness. -/
def sampleCheck : CheckConfiguration := { check_id := "image-alt", check_name := "n" }

/-- A sample per-user override used by the resolution witness. -/
def sampleOverride : UserCheckConfiguration :=
  { user_id := 7, check_id := "image-alt", enabled := false, severity := .warning }

/-- A sample violation with an unrecognised rule id. -/
def sampleUnknownViolation : VDict := { id := "mystery-rule" }

/-! ### Crawl-loop invariants -/

/-- The invariants maintained by every iteration of the crawl loop:
the queue depths are sorted and span at most two consecutive levels, every
queued depth dominates every already-visited depth, visits are unique and in
non-decreasing depth order, the `ScanResult` lists/counters agree with the
visit trace, and the page/depth budgets hold. -/
structure CrawlInv (mp md : Nat) (st : CrawlState) : Prop where
  maxPagesEq : st.result.max_pages = mp
  maxDepthEq : st.result.max_depth = md
  qSorted : List.Pairwise (· ≤ ·) (st.toVisit.map Prod.snd)
  qSpan : ∀ a ∈ st.toVisit.map Prod.snd, ∀ b ∈ st.toVisit.map Prod.snd, a ≤ b + 1
  trQ : ∀ a ∈ st.visitedTr.map Prod.snd, ∀ b ∈ st.toVisit.map Prod.snd, a ≤ b
  trSorted : List.Pairwise (· ≤ ·) (st.visitedTr.map Prod.snd)
  trNodup : (st.visitedTr.map Prod.fst).Nodup
  trUrls : st.result.page_results.map PageResult.url = st.visitedTr.map Prod.fst
  scannedEq : st.result.pages_scanned = st.result.page_results.length
  lenEq : st.result.page_results.length = st.visitedTr.length
  budget : st.result.page_results.length ≤ mp
  depthLe : ∀ d ∈ st.visitedTr.map Prod.snd, d ≤ md
  totals : st.result.total_violations
    = (st.result.page_results.map (fun p => p.violations.length)).sum
  withV : st.result.pages_with_violations
    = st.result.page_results.countP (fun p => decide (0 < p.violations.length))

/-- Invariants of a successful parse, used to show that re-parsing a
normalised URL recovers its components. -/
structure ParseInv (p : UrlParts) : Prop where
  schemeLower : pyLower p.scheme = p.scheme
  schemeShape : p.scheme ≠ [] →
    (p.scheme.take 1).all isAsciiAlpha = true
    ∧ ∀ c ∈ p.scheme.drop 1, isSchemeChar c = true
  netlocClean : ∀ c ∈ p.netloc, isNetEnd c = false
  netlocNoUnsafe : ∀ c ∈ p.netloc, isUnsafeChar c = false
  pathNoHash : '#' ∉ p.path
  pathNoQm : '?' ∉ p.path
  pathNoUnsafe : ∀ c ∈ p.path, isUnsafeChar c = false
  pathShape : p.netloc ≠ [] → (p.path = [] ∨ p.path.take 1 = ['/'])
  brackets : ¬(('[' ∈ p.netloc ∧ ']' ∉ p.netloc) ∨ (']' ∈ p.netloc ∧ '[' ∉ p.netloc))

/-! ### Theorems -/

theorem lookup_mem_cases {α β : Type} [BEq α] [LawfulBEq α]
    (l : List (α × β)) (a : α) :
    l.lookup a = none ∨ ∃ b, l.lookup a = some b ∧ (a, b) ∈ l := by
  induction l with
  | nil => left; rfl
  | cons kv t ih =>
    rcases kv with ⟨k, v⟩
    rcases h : a == k with _ | _
    · rcases ih with h' | ⟨b, hb, hmem⟩
      · left; simpa [List.lookup, h] using h'
      · right; exact ⟨b, by simpa [List.lookup, h] using hb, List.mem_cons_of_mem _ hmem⟩
    · right
      refine ⟨v, by simp [List.lookup, h], ?_⟩
      have hak : a = k := eq_of_beq h
      subst hak
      exact List.mem_cons_self _ _

theorem lowerChar_cases (c : Char) :
    lowerChar c = c ∨ (c, lowerChar c) ∈ lowerPairs := by
  rcases lookup_mem_cases lowerPairs c with h | ⟨b, hb, hmem⟩
  · left; simp [lowerChar, h]
  · right; simpa [lowerChar, hb] using hmem

/-- Each table row: lowering a lower-case letter is the identity, and the code
points of both columns lie in the expected ASCII ranges. -/
theorem lowerPairs_facts : ∀ cv ∈ lowerPairs,
    lowerChar cv.2 = cv.2 ∧ 97 ≤ cv.2.toNat ∧ cv.2.toNat ≤ 122 ∧
    65 ≤ cv.1.toNat ∧ cv.1.toNat ≤ 90 := by decide

theorem lowerChar_idem (c : Char) : lowerChar (lowerChar c) = lowerChar c := by
  rcases lowerChar_cases c with h | h
  · rw [h]; rcases lowerChar_cases c with h' | h'
    · exact h'
    · exact h ▸ (lowerPairs_facts _ h').1
  · exact (lowerPairs_facts _ h).1

theorem pyLower_idem (s : List Char) : pyLower (pyLower s) = pyLower s := by
  simp only [pyLower, List.map_map]
  exact List.map_congr_left fun c _ => lowerChar_idem c

theorem lowerChar_toNat (c : Char) :
    lowerChar c = c ∨ (97 ≤ (lowerChar c).toNat ∧ (lowerChar c).toNat ≤ 122 ∧
      65 ≤ c.toNat ∧ c.toNat ≤ 90) := by
  rcases lowerChar_cases c with h | h
  · exact Or.inl h
  · right
    have := lowerPairs_facts _ h
    exact ⟨this.2.1, this.2.2.1, this.2.2.2.1, this.2.2.2.2⟩

/-- C6: an `<img src="spacer.gif" width="1" alt="Company Logo">` yields
exactly one `spacer-image-alt` violation; an `<img src="spacer.gif" alt="">`
yields none; in general a detected spacer image is flagged if and only if its
`alt` attribute is not exactly the empty string. -/
theorem spacer_image_flagged_iff_alt_nonempty :
    ((check_spacer_images
        [{ src := "spacer.gif", alt := some "Company Logo", width := "1" }]).map
      (fun v => v.id) = ["spacer-image-alt"])
    ∧ check_spacer_images [{ src := "spacer.gif", alt := some "" }] = []
    ∧ ∀ img : ImgTag, isSpacerImg img = true →
        (check_spacer_images [img] ≠ [] ↔ img.alt ≠ some "") := by
  refine ⟨by decide, by decide, ?_⟩
  intro img h
  by_cases ha : img.alt = some ""
  · simp [check_spacer_images, ha]
  · simp [check_spacer_images, h, ha]

/-- Witness for the conditional part of the spacer-image theorem, at a
spacer-named image with no `alt` attribute. -/
theorem spacer_image_flagged_iff_alt_nonempty_witness :
    (isSpacerImg { src := "images/pixel.png" } = true)
    ∧ (check_spacer_images [{ src := "images/pixel.png" }] ≠ [] ↔
        ({ src := "images/pixel.png" } : ImgTag).alt ≠ some "") :=
  ⟨by decide, spacer_image_flagged_iff_alt_nonempty.2.2 _ (by decide)⟩

/-- C3: effective configuration resolution.  Without an override for
`(user, rule)` the merged entry carries the global `enabled`/`severity`;
with one, the override's `enabled`/`severity` fully replace the global values
while every metadata field still comes from the global row; and a violation
whose rule id has no global row passes through aggregation unmodified. -/
theorem check_config_resolution :
    (∀ (c : CheckConfiguration) (ovs : List UserCheckConfiguration) (uid : Nat),
        overrideFor ovs uid c.check_id = none →
        get_user_checks [c] ovs uid =
          [{ id := c.id, check_id := c.check_id, check_name := c.check_name,
             description := c.description, enabled := c.enabled,
             severity := c.severity.value, wcag_criterion := c.wcag_criterion,
             wcag_level := c.wcag_level, aoda_required := c.aoda_required,
             wcag21_only := c.wcag21_only, check_type := c.check_type,
             help_url := c.help_url, has_user_override := false }])
    ∧ (∀ (c : CheckConfiguration) (ovs : List UserCheckConfiguration) (uid : Nat)
        (uo : UserCheckConfiguration),
        overrideFor ovs uid c.check_id = some uo →
        get_user_checks [c] ovs uid =
          [{ id := c.id, check_id := c.check_id, check_name := c.check_name,
             description := c.description, enabled := uo.enabled,
             severity := uo.severity.value, wcag_criterion := c.wcag_criterion,
             wcag_level := c.wcag_level, aoda_required := c.aoda_required,
             wcag21_only := c.wcag21_only, check_type := c.check_type,
             help_url := c.help_url, has_user_override := true }])
    ∧ (∀ (cfgs : List (String × CfgEntry)) (v : VDict),
        cfgs.lookup v.id = none →
        applyConfig cfgs v = some v ∧ aggregate_violations cfgs [v] [] = [v]) := by
  refine ⟨?_, ?_, ?_⟩
  · intro c ovs uid h
    simp [get_user_checks, h]
  · intro c ovs uid uo h
    simp [get_user_checks, h]
  · intro cfgs v h
    constructor
    · simp [applyConfig, h]
    · simp [aggregate_violations, applyConfig, h]

/-- Witness for the three conditional parts of the resolution theorem:
a global row with no override, the same row with an override, and an
unknown rule id. -/
theorem check_config_resolution_witness :
    (overrideFor [] 7 "image-alt" = none
      ∧ get_user_checks [sampleCheck] [] 7 =
          [{ id := 0, check_id := "image-alt", check_name := "n", description := none,
             enabled := true, severity := "error", wcag_criterion := none,
             wcag_level := none, aoda_required := false, wcag21_only := false,
             check_type := "axe", help_url := none, has_user_override := false }])
    ∧ (overrideFor [sampleOverride] 7 "image-alt" = some sampleOverride
      ∧ get_user_checks [sampleCheck] [sampleOverride] 7 =
          [{ id := 0, check_id := "image-alt", check_name := "n", description := none,
             enabled := false, severity := "warning", wcag_criterion := none,
             wcag_level := none, aoda_required := false, wcag21_only := false,
             check_type := "axe", help_url := none, has_user_override := true }])
    ∧ (applyConfig [] sampleUnknownViolation = some sampleUnknownViolation
      ∧ aggregate_violations [] [sampleUnknownViolation] [] = [sampleUnknownViolation]) :=
  ⟨⟨by decide, check_config_resolution.1 sampleCheck [] 7 (by decide)⟩,
   ⟨by decide, check_config_resolution.2.1 sampleCheck [sampleOverride] 7 sampleOverride (by decide)⟩,
   check_config_resolution.2.2 [] sampleUnknownViolation (by decide)⟩

/-- C1 (failing scenario): the rule `color-contrast-enhanced` is seeded with
`enabled = false` in the global check table and has no user override, yet a
scan in which the audit engine reports it produces a finished `ScanResult`
whose page carries exactly that violation — the crawler appends audit-engine
violations without ever consulting the check configuration or
`aggregate_violations`, which would have dropped the rule. -/
theorem disabled_rule_reaches_scan_result :
    ((defaultChecks.find? fun c => c.check_id == "color-contrast-enhanced").map
        CheckConfiguration.enabled = some false)
    ∧ (((runScan disabledRuleEnv disabledRuleReq 2).page_results.map
        fun p => p.violations.map AccessibilityViolation.id) = [["color-contrast-enhanced"]])
    ∧ (runScan disabledRuleEnv disabledRuleReq 2).total_violations = 1
    ∧ (runScan disabledRuleEnv disabledRuleReq 2).status = "completed"
    ∧ aggregate_violations
        [("color-contrast-enhanced", { enabled := some false, severity := some "warning" })]
        [{ id := "color-contrast-enhanced", impact := some "serious" }] [] = [] := by
  refine ⟨by decide, by decide, by decide, by decide, by decide⟩

/-- C5: when page navigation raises, `_scan_page` records the error on the
`PageResult` and skips auditing and content capture; a scan whose seed
navigation times out finishes with one errored `PageResult`,
`pages_scanned = 1`, `total_violations = 0` and status `completed`. -/
theorem navigation_failure_recorded :
    (∀ (env : CrawlEnv) (url e : String), (env.page url).navError = some e →
        scanPage env url = ({ url := url, error := some e }, none))
    ∧ (runScan navFailEnv navFailReq 2).pages_scanned = 1
    ∧ ((runScan navFailEnv navFailReq 2).page_results.map fun p => p.error)
        = [some "Timeout 30000ms exceeded"]
    ∧ (runScan navFailEnv navFailReq 2).total_violations = 0
    ∧ (runScan navFailEnv navFailReq 2).status = "completed" := by
  refine ⟨?_, by decide, by decide, by decide, by decide⟩
  intro env url e h
  simp [scanPage, h]

/-- Witness for the conditional part of the navigation-failure theorem, at
the timeout environment. -/
theorem navigation_failure_recorded_witness :
    scanPage navFailEnv "https://example.com/page"
      = ({ url := "https://example.com/page", error := some "Timeout 30000ms exceeded" }, none) :=
  navigation_failure_recorded.1 navFailEnv "https://example.com/page"
    "Timeout 30000ms exceeded" (by decide)

theorem scanPage_url (env : CrawlEnv) (url : String) : (scanPage env url).1.url = url := by
  rcases hn : (env.page url).navError with _ | e
  · rcases ha : (env.page url).axeError with _ | e' <;> simp [scanPage, hn, ha]
  · simp [scanPage, hn]

theorem enqueueLinks_shape (visited : List String) (links : List String) (d : Nat) :
    ∀ q, ∃ ls : List String,
      enqueueLinks visited q links d = q ++ ls.map (fun l => (l, d)) := by
  induction links with
  | nil => intro q; exact ⟨[], by simp [enqueueLinks]⟩
  | cons l t ih =>
    intro q
    by_cases h : l ∈ visited ∨ l ∈ q.map Prod.fst
    · obtain ⟨ms, hm⟩ := ih q
      exact ⟨ms, by simpa [enqueueLinks, List.foldl_cons, if_pos h] using hm⟩
    · obtain ⟨ms, hm⟩ := ih (q ++ [(l, d)])
      refine ⟨l :: ms, ?_⟩
      have : enqueueLinks visited q (l :: t) d = enqueueLinks visited (q ++ [(l, d)]) t d := by
        simp [enqueueLinks, List.foldl_cons, if_neg h]
      rw [this, hm]
      simp

theorem pairwise_le_of_all_eq {l : List Nat} {k : Nat} (h : ∀ b ∈ l, b = k) :
    List.Pairwise (· ≤ ·) l := by
  induction l with
  | nil => exact List.Pairwise.nil
  | cons a t ih =>
    refine List.Pairwise.cons (fun b hb => ?_) (ih fun b hb => h b (List.mem_cons_of_mem _ hb))
    rw [h a (List.mem_cons_self _ _), h b (List.mem_cons_of_mem _ hb)]

/-- Invariant preservation for the scanning branch of a crawl iteration, for
an arbitrary batch `ls` of links enqueued at depth `depth + 1`. -/
theorem inv_scan_shape (mp md : Nat) (st : CrawlState) (inv : CrawlInv mp md st)
    (url : String) (depth : Nat) (rest : List (String × Nat))
    (hq : st.toVisit = (url, depth) :: rest)
    (hmp : st.visitedTr.length < mp)
    (hv : url ∉ st.visitedTr.map Prod.fst)
    (hd : depth ≤ md)
    (pr : PageResult) (hpru : pr.url = url)
    (ls : List String) :
    CrawlInv mp md
      { toVisit := rest ++ ls.map (fun l => (l, depth + 1))
        visitedTr := st.visitedTr ++ [(url, depth)]
        result := { st.result with
          page_results := st.result.page_results ++ [pr]
          pages_scanned := st.result.pages_scanned + 1
          pages_with_violations := st.result.pages_with_violations
            + (if 0 < pr.violations.length then 1 else 0)
          total_violations := st.result.total_violations + pr.violations.length } } := by
  have hqs := inv.qSorted
  have hspan := inv.qSpan
  have htrq := inv.trQ
  rw [hq] at hqs hspan htrq
  simp only [List.map_cons] at hqs hspan htrq
  have hdr : ∀ b ∈ rest.map Prod.snd, depth ≤ b := (List.pairwise_cons.mp hqs).1
  have hrs : List.Pairwise (· ≤ ·) (rest.map Prod.snd) := (List.pairwise_cons.mp hqs).2
  have hspan' : ∀ a ∈ rest.map Prod.snd, a ≤ depth + 1 := fun a ha =>
    hspan a (List.mem_cons_of_mem _ ha) depth (List.mem_cons_self _ _)
  have htr_depth : ∀ a ∈ st.visitedTr.map Prod.snd, a ≤ depth := fun a ha =>
    htrq a ha depth (List.mem_cons_self _ _)
  have hmem_const : ∀ b ∈ ls.map (fun _ => depth + 1), b = depth + 1 := by
    intro b hb; rcases List.mem_map.mp hb with ⟨x, _, rfl⟩; rfl
  constructor
  case maxPagesEq => exact inv.maxPagesEq
  case maxDepthEq => exact inv.maxDepthEq
  case qSorted =>
    simp only [List.map_append, List.map_map]
    rw [List.pairwise_append]
    refine ⟨hrs, ?_, ?_⟩
    · exact pairwise_le_of_all_eq fun b hb => by
        rcases List.mem_map.mp hb with ⟨x, _, rfl⟩; rfl
    · intro a ha b hb
      have hb' : b = depth + 1 := by
        rcases List.mem_map.mp hb with ⟨x, _, rfl⟩; rfl
      rw [hb']
      exact hspan' a ha
  case qSpan =>
    simp only [List.map_append, List.map_map]
    intro a ha b hb
    rcases List.mem_append.mp ha with ha' | ha'
    · rcases List.mem_append.mp hb with hb' | hb'
      · exact hspan a (List.mem_cons_of_mem _ ha') b (List.mem_cons_of_mem _ hb')
      · have : b = depth + 1 := by rcases List.mem_map.mp hb' with ⟨x, _, rfl⟩; rfl
        rw [this]
        exact le_trans (hspan' a ha') (Nat.le_succ _)
    · have ha'' : a = depth + 1 := by rcases List.mem_map.mp ha' with ⟨x, _, rfl⟩; rfl
      rcases List.mem_append.mp hb with hb' | hb'
      · rw [ha'']
        exact Nat.succ_le_succ (hdr b hb')
      · have : b = depth + 1 := by rcases List.mem_map.mp hb' with ⟨x, _, rfl⟩; rfl
        rw [ha'', this]
        exact Nat.le_succ _
  case trQ =>
    simp only [List.map_append, List.map_map]
    intro a ha b hb
    rcases List.mem_append.mp ha with ha' | ha'
    · rcases List.mem_append.mp hb with hb' | hb'
      · exact htrq a ha' b (List.mem_cons_of_mem _ hb')
      · have : b = depth + 1 := by rcases List.mem_map.mp hb' with ⟨x, _, rfl⟩; rfl
        rw [this]
        exact le_trans (htr_depth a ha') (Nat.le_succ _)
    · have ha'' : a = depth := by simpa using ha'
      rcases List.mem_append.mp hb with hb' | hb'
      · rw [ha'']; exact hdr b hb'
      · have : b = depth + 1 := by rcases List.mem_map.mp hb' with ⟨x, _, rfl⟩; rfl
        rw [ha'', this]
        exact Nat.le_succ _
  case trSorted =>
    simp only [List.map_append]
    rw [List.pairwise_append]
    refine ⟨inv.trSorted, by simp, ?_⟩
    intro a ha b hb
    have : b = depth := by simpa using hb
    rw [this]
    exact htr_depth a ha
  case trNodup =>
    simp only [List.map_append]
    simp [List.nodup_append, inv.trNodup, hv]
  case trUrls =>
    simp only [List.map_append, inv.trUrls]
    simp [hpru]
  case scannedEq =>
    simp [inv.scannedEq]
  case lenEq =>
    simp [inv.lenEq]
  case budget =>
    have := inv.lenEq
    simp only [List.length_append, List.length_cons, List.length_nil]
    omega
  case depthLe =>
    simp only [List.map_append]
    intro d hd'
    rcases List.mem_append.mp hd' with h' | h'
    · exact inv.depthLe d h'
    · have : d = depth := by simpa using h'
      rw [this]; exact hd
  case totals =>
    simp [inv.totals]
  case withV =>
    simp only [List.countP_append, List.countP_cons, List.countP_nil, inv.withV]
    by_cases h0 : 0 < pr.violations.length
    · simp [h0]
    · simp [h0]

/-- Invariant preservation for the skip branches (already visited, or too
deep): only the queue head is discarded. -/
theorem inv_tail (mp md : Nat) (st : CrawlState) (inv : CrawlInv mp md st)
    (url : String) (depth : Nat) (rest : List (String × Nat))
    (hq : st.toVisit = (url, depth) :: rest) :
    CrawlInv mp md { st with toVisit := rest } := by
  have hqs := inv.qSorted
  have hspan := inv.qSpan
  have htrq := inv.trQ
  rw [hq] at hqs hspan htrq
  simp only [List.map_cons] at hqs hspan htrq
  exact { inv with
    qSorted := (List.pairwise_cons.mp hqs).2
    qSpan := fun a ha b hb =>
      hspan a (List.mem_cons_of_mem _ ha) b (List.mem_cons_of_mem _ hb)
    trQ := fun a ha b hb => htrq a ha b (List.mem_cons_of_mem _ hb) }

theorem crawlStep_inv {env : CrawlEnv} {mp md : Nat} {st st' : CrawlState}
    (h : crawlStep env st = some st') (inv : CrawlInv mp md st) :
    CrawlInv mp md st' := by
  rcases hq : st.toVisit with _ | ⟨⟨url, depth⟩, rest⟩
  · rw [crawlStep, hq] at h
    simp at h
  · rw [crawlStep, hq] at h
    simp only at h
    by_cases hmp : st.result.max_pages ≤ st.visitedTr.length
    · rw [if_pos hmp] at h
      simp at h
    · rw [if_neg hmp] at h
      by_cases hv : url ∈ st.visitedTr.map Prod.fst
      · rw [if_pos hv] at h
        rw [Option.some_inj] at h
        exact h ▸ inv_tail mp md st inv url depth rest hq
      · rw [if_neg hv] at h
        by_cases hd : st.result.max_depth < depth
        · rw [if_pos hd] at h
          rw [Option.some_inj] at h
          exact h ▸ inv_tail mp md st inv url depth rest hq
        · rw [if_neg hd] at h
          rw [Option.some_inj] at h
          have hmp' : st.visitedTr.length < mp := by
            rw [inv.maxPagesEq] at hmp; omega
          have hd' : depth ≤ md := by
            rw [inv.maxDepthEq] at hd; omega
          set doLinks : Bool :=
            decide (depth < st.result.max_depth) && (scanPage env url).1.error.isNone &&
            (match (scanPage env url).2 with | some c => !(c == "") | none => false) with hdl
          by_cases hl : doLinks = true
          · obtain ⟨ls, hls⟩ := enqueueLinks_shape
              ((st.visitedTr ++ [(url, depth)]).map Prod.fst) (env.links url) (depth + 1) rest
            rw [← h, if_pos hl, hls]
            exact inv_scan_shape mp md st inv url depth rest hq hmp' hv hd'
              (scanPage env url).1 (scanPage_url env url) ls
          · rw [← h, if_neg hl]
            have hstep := inv_scan_shape mp md st inv url depth rest hq hmp' hv hd'
              (scanPage env url).1 (scanPage_url env url) []
            simpa using hstep

theorem initState_inv (req : ScanRequest) :
    CrawlInv req.max_pages req.max_depth (initState req) := by
  constructor <;> simp [initState]

theorem crawlRun_inv (env : CrawlEnv) (mp md : Nat) :
    ∀ (fuel : Nat) (st : CrawlState),
      CrawlInv mp md st → CrawlInv mp md (crawlRun env fuel st) := by
  intro fuel
  induction fuel with
  | zero => intro st h; exact h
  | succ n ih =>
    intro st h
    rw [crawlRun]
    cases hs : crawlStep env st with
    | none => exact h
    | some st' => exact ih st' (crawlStep_inv hs h)

/-- C4: BFS ordering — the dequeued-and-visited URLs, in visit order, have
non-decreasing depths, for every environment, request and number of loop
iterations. -/
theorem bfs_depths_monotone (env : CrawlEnv) (req : ScanRequest) (fuel : Nat) :
    List.Pairwise (· ≤ ·)
      ((crawlRun env fuel (initState req)).visitedTr.map Prod.snd) :=
  (crawlRun_inv env req.max_pages req.max_depth fuel (initState req)
    (initState_inv req)).trSorted

/-- C7: at every step of a crawl, and on the completed scan, the running
totals agree with the page results: `total_violations` is the sum of the
per-page violation counts and `pages_with_violations` counts the pages with a
non-empty violation list. -/
theorem running_totals_agree (env : CrawlEnv) (req : ScanRequest) (fuel : Nat) :
    ((crawlRun env fuel (initState req)).result.total_violations
        = (((crawlRun env fuel (initState req)).result.page_results.map
            (fun p => p.violations.length)).sum)
      ∧ (crawlRun env fuel (initState req)).result.pages_with_violations
        = (crawlRun env fuel (initState req)).result.page_results.countP
            (fun p => decide (0 < p.violations.length)))
    ∧ ((runScan env req fuel).total_violations
        = (((runScan env req fuel).page_results.map (fun p => p.violations.length)).sum)
      ∧ (runScan env req fuel).pages_with_violations
        = (runScan env req fuel).page_results.countP
            (fun p => decide (0 < p.violations.length))) := by
  have hinv := crawlRun_inv env req.max_pages req.max_depth fuel (initState req)
    (initState_inv req)
  exact ⟨⟨hinv.totals, hinv.withV⟩, ⟨hinv.totals, hinv.withV⟩⟩

/-- C8: the crawl budgets are never exceeded — at every step and on the
completed scan, at most `max_pages` page results exist, and every visited URL
was dequeued at a depth of at most `max_depth`. -/
theorem crawl_budgets_respected (env : CrawlEnv) (req : ScanRequest) (fuel : Nat) :
    (crawlRun env fuel (initState req)).result.page_results.length ≤ req.max_pages
    ∧ (∀ d ∈ (crawlRun env fuel (initState req)).visitedTr.map Prod.snd,
        d ≤ req.max_depth)
    ∧ (runScan env req fuel).page_results.length ≤ req.max_pages := by
  have hinv := crawlRun_inv env req.max_pages req.max_depth fuel (initState req)
    (initState_inv req)
  exact ⟨hinv.budget, hinv.depthLe, hinv.budget⟩

/-- C9: within one scan no URL is visited twice — the URLs of the page
results (at every step and on the completed scan) are pairwise distinct. -/
theorem no_duplicate_page_results (env : CrawlEnv) (req : ScanRequest) (fuel : Nat) :
    ((crawlRun env fuel (initState req)).result.page_results.map PageResult.url).Nodup
    ∧ ((runScan env req fuel).page_results.map PageResult.url).Nodup := by
  have hinv := crawlRun_inv env req.max_pages req.max_depth fuel (initState req)
    (initState_inv req)
  constructor
  · rw [hinv.trUrls]; exact hinv.trNodup
  · show ((crawlRun env fuel (initState req)).result.page_results.map PageResult.url).Nodup
    rw [hinv.trUrls]; exact hinv.trNodup

/-- C10: at every step of a crawl and on the completed scan,
`pages_scanned = len(page_results) = len(visited_urls)` — every visited URL
contributes exactly one page result and one increment of the counter. -/
theorem pages_scanned_agrees_with_visits (env : CrawlEnv) (req : ScanRequest) (fuel : Nat) :
    ((crawlRun env fuel (initState req)).result.pages_scanned
        = (crawlRun env fuel (initState req)).result.page_results.length
      ∧ (crawlRun env fuel (initState req)).result.page_results.length
        = (crawlRun env fuel (initState req)).visitedTr.length
      ∧ ((crawlRun env fuel (initState req)).visitedTr.map Prod.fst).Nodup)
    ∧ (runScan env req fuel).pages_scanned = (runScan env req fuel).page_results.length := by
  have hinv := crawlRun_inv env req.max_pages req.max_depth fuel (initState req)
    (initState_inv req)
  exact ⟨⟨hinv.scannedEq, hinv.lenEq, hinv.trNodup⟩, hinv.scannedEq⟩

/-! ### URL normalisation: counterexample to idempotence -/

/-- C2 (counterexample): `_normalize_url` is, as stated, not idempotent.
Normalising `http://www.www.example.com/` succeeds and yields
`https://www.example.com/`; normalising that output strips a second `www.`
and yields `https://example.com/`, a different string. -/
theorem normalize_not_idempotent :
    pyNormalize ("http://www.www.example.com/".toList)
      = some ("https://www.example.com/".toList)
    ∧ pyNormalize ("https://www.example.com/".toList)
      = some ("https://example.com/".toList)
    ∧ pyNormalize ((pyNormalize ("http://www.www.example.com/".toList)).getD [])
      ≠ pyNormalize ("http://www.www.example.com/".toList) := by
  refine ⟨by decide, by decide, by decide⟩

/-! ### Helper lemmas on the parsing primitives -/

theorem takeUntilChar_of_not_mem {c : Char} : ∀ {s : List Char}, c ∉ s →
    takeUntilChar c s = s := by
  intro s
  induction s with
  | nil => intro _; rfl
  | cons x xs ih =>
    intro h
    have hx : x ≠ c := fun he => h (he ▸ List.mem_cons_self _ _)
    rw [takeUntilChar, if_neg hx, ih (fun hm => h (List.mem_cons_of_mem _ hm))]

theorem mem_takeUntilChar {c x : Char} : ∀ {s : List Char},
    x ∈ takeUntilChar c s → x ∈ s ∧ x ≠ c := by
  intro s
  induction s with
  | nil => intro h; exact absurd h (by simp [takeUntilChar])
  | cons y ys ih =>
    intro h
    rw [takeUntilChar] at h
    by_cases hy : y = c
    · rw [if_pos hy] at h; exact absurd h (by simp)
    · rw [if_neg hy] at h
      rcases List.mem_cons.mp h with rfl | h'
      · exact ⟨List.mem_cons_self _ _, hy⟩
      · exact ⟨List.mem_cons_of_mem _ (ih h').1, (ih h').2⟩

theorem splitLastSlash_isSome_append (l1 l2 : List Char) :
    (splitLastSlash (l1 ++ '/' :: l2)).isSome = true := by
  induction l1 with
  | nil =>
    rw [List.nil_append, splitLastSlash]
    rcases h2 : splitLastSlash l2 with _ | ⟨a2, b2⟩ <;> simp [h2]
  | cons y ys ih =>
    rw [List.cons_append, splitLastSlash]
    rcases h2 : splitLastSlash (ys ++ '/' :: l2) with _ | ⟨a2, b2⟩
    · rw [h2] at ih; simp at ih
    · simp [h2]

theorem splitLastSlash_spec : ∀ {s a b : List Char},
    splitLastSlash s = some (a, b) → s = a ++ '/' :: b ∧ '/' ∉ b := by
  intro s
  induction s with
  | nil => intro a b h; exact absurd h (by simp [splitLastSlash])
  | cons c cs ih =>
    intro a b h
    rw [splitLastSlash] at h
    rcases hcs : splitLastSlash cs with _ | ⟨a', b'⟩
    · rw [hcs] at h
      by_cases hc : c = '/'
      · rw [if_pos hc] at h
        rcases Option.some_inj.mp h with h'
        cases h'
        subst hc
        refine ⟨rfl, ?_⟩
        intro hm
        rcases List.mem_iff_append.mp hm with ⟨l1, l2, rfl⟩
        have := splitLastSlash_isSome_append l1 l2
        rw [hcs] at this
        simp at this
      · rw [if_neg hc] at h; exact absurd h (by simp)
    · rw [hcs] at h
      rcases Option.some_inj.mp h with h'
      cases h'
      obtain ⟨heq, hnb⟩ := ih hcs
      exact ⟨by rw [heq]; rfl, hnb⟩

theorem splitLastSlash_none : ∀ {s : List Char}, splitLastSlash s = none → '/' ∉ s := by
  intro s
  induction s with
  | nil => intro _ h; simp at h
  | cons c cs ih =>
    intro h hm
    rw [splitLastSlash] at h
    rcases hcs : splitLastSlash cs with _ | v
    · rw [hcs] at h
      by_cases hc : c = '/'
      · rw [if_pos hc] at h; simp at h
      · rw [if_neg hc] at h
        rcases List.mem_cons.mp hm with rfl | hm'
        · exact hc rfl
        · exact ih hcs hm'
    · rw [hcs] at h; simp at h

theorem dropWhile_head_false {p : Char → Bool} : ∀ {l : List Char} {x : Char} {t : List Char},
    l.dropWhile p = x :: t → p x = false := by
  intro l
  induction l with
  | nil => intro x t h; simp at h
  | cons a l ih =>
    intro x t h
    rw [List.dropWhile_cons] at h
    by_cases ha : p a = true
    · rw [if_pos ha] at h; exact ih h
    · rw [if_neg ha] at h
      rcases List.cons.injEq a l x t ▸ h with ⟨rfl, rfl⟩
      simpa using ha

theorem reverse_cons_getLastD (c d : Char) (t : List Char) :
    ((c :: t).reverse).getLastD d = c := by
  simp [List.getLastD_eq_getLast?, List.getLast?_reverse]

theorem mem_dropParams {x : Char} {s : List Char} (h : x ∈ dropParams s) : x ∈ s := by
  rw [dropParams] at h
  by_cases hs : ';' ∈ s
  · rw [if_pos hs] at h
    rcases hsp : splitLastSlash s with _ | ⟨a, b⟩ <;> simp only [hsp] at h
    · exact (mem_takeUntilChar h).1
    · obtain ⟨heq, _⟩ := splitLastSlash_spec hsp
      by_cases hb : ';' ∈ b
      · rw [if_pos hb] at h
        rw [heq]
        rcases List.mem_append.mp h with h' | h'
        · exact List.mem_append.mpr (Or.inl h')
        · rcases List.mem_cons.mp h' with rfl | h''
          · exact List.mem_append.mpr (Or.inr (List.mem_cons_self _ _))
          · exact List.mem_append.mpr
              (Or.inr (List.mem_cons_of_mem _ (mem_takeUntilChar h'').1))
      · rw [if_neg hb] at h; exact h
  · rw [if_neg hs] at h; exact h

theorem mem_ite_dropParams {x : Char} {s : List Char} {c : Prop} [Decidable c]
    (h : x ∈ (if c then dropParams s else s)) : x ∈ s := by
  by_cases hc : c
  · rw [if_pos hc] at h; exact mem_dropParams h
  · rw [if_neg hc] at h; exact h

theorem dropParams_head {t : List Char} :
    dropParams ('/' :: t) ≠ [] ∧ (dropParams ('/' :: t)).take 1 = ['/'] := by
  rw [dropParams]
  by_cases hs : ';' ∈ '/' :: t
  · rw [if_pos hs]
    rcases hsp : splitLastSlash ('/' :: t) with _ | ⟨a, b⟩
    · exact absurd (splitLastSlash_none hsp) (by simp)
    · simp only [hsp]
      obtain ⟨heq, _⟩ := splitLastSlash_spec hsp
      by_cases hb : ';' ∈ b
      · rw [if_pos hb]
        rcases ha : a with _ | ⟨c, a'⟩
        · simp
        · have : c = '/' := by
            rw [ha] at heq
            simpa using (congrArg (fun l => l.take 1) heq).symm
          subst this
          simp
      · rw [if_neg hb]; simp
  · rw [if_neg hs]; simp

theorem rstripSlash_split (s : List Char) :
    s = rstripSlash s ++ (s.reverse.takeWhile (fun c => c = '/')).reverse
    ∧ ∀ c ∈ (s.reverse.takeWhile (fun c => c = '/')), c = '/' := by
  constructor
  · have h := List.takeWhile_append_dropWhile (fun c => decide (c = '/')) s.reverse
    rw [rstripSlash]
    calc s = s.reverse.reverse := (List.reverse_reverse s).symm
    _ = (s.reverse.takeWhile (fun c => c = '/')
          ++ s.reverse.dropWhile (fun c => c = '/')).reverse := by rw [h]
    _ = (s.reverse.dropWhile (fun c => c = '/')).reverse
          ++ (s.reverse.takeWhile (fun c => c = '/')).reverse := by
        rw [List.reverse_append]
  · intro c hc
    have := List.mem_takeWhile_imp hc
    exact of_decide_eq_true this

theorem mem_rstripSlash {x : Char} {s : List Char} (h : x ∈ rstripSlash s) : x ∈ s := by
  have := (rstripSlash_split s).1
  rw [this]
  exact List.mem_append.mpr (Or.inl h)

theorem rstripSlash_take_one {s : List Char} (hne : rstripSlash s ≠ []) :
    (rstripSlash s).take 1 = s.take 1 := by
  have h := (rstripSlash_split s).1
  conv_rhs => rw [h]
  rcases hr : rstripSlash s with _ | ⟨c, t⟩
  · exact absurd hr hne
  · simp

theorem rstripSlash_getLast {s : List Char} (hne : rstripSlash s ≠ []) :
    (rstripSlash s).getLastD 'x' ≠ '/' := by
  rw [rstripSlash] at hne ⊢
  rcases hd : s.reverse.dropWhile (fun c => c = '/') with _ | ⟨c, t⟩
  · rw [hd] at hne; simp at hne
  · have hc := dropWhile_head_false hd
    rw [reverse_cons_getLastD]
    simpa using hc

theorem rstripSlash_eq_self {s : List Char}
    (h : s = [] ∨ s.getLastD 'x' ≠ '/') : rstripSlash s = s := by
  rcases h with rfl | h
  · rfl
  · rw [rstripSlash]
    rcases hs : s.reverse with _ | ⟨c, t⟩
    · have : s = [] := by simpa using congrArg List.reverse hs
      rw [this]; rfl
    · have hc : c ≠ '/' := by
        have hgl : s.getLastD 'x' = c := by
          have : s = (c :: t).reverse := by
            rw [← hs, List.reverse_reverse]
          rw [this, reverse_cons_getLastD]
        intro hc'
        exact h (by rw [hgl, hc'])
      rw [List.dropWhile_cons, if_neg (by simpa using hc)]
      rw [← hs, List.reverse_reverse]

theorem rstripSlash_idem (s : List Char) :
    rstripSlash (rstripSlash s) = rstripSlash s := by
  rcases hr : rstripSlash s with _ | ⟨c, t⟩
  · rfl
  · refine rstripSlash_eq_self (Or.inr ?_)
    rw [← hr]
    exact rstripSlash_getLast (by rw [hr]; simp)

theorem ne_of_toNat_ne {c d : Char} (h : c.toNat ≠ d.toNat) : c ≠ d :=
  fun he => h (congrArg Char.toNat he)

theorem lowerChar_asciiAlpha {c : Char} (h : isAsciiAlpha c = true) :
    isAsciiAlpha (lowerChar c) = true := by
  rcases lowerChar_toNat c with h' | ⟨h1, h2, _, _⟩
  · rw [h']; exact h
  · simp only [isAsciiAlpha, Bool.or_eq_true, Bool.and_eq_true, decide_eq_true_eq]
    omega

theorem lowerChar_schemeChar {c : Char} (h : isSchemeChar c = true) :
    isSchemeChar (lowerChar c) = true := by
  rcases lowerChar_toNat c with h' | ⟨h1, h2, _, _⟩
  · rw [h']; exact h
  · simp only [isSchemeChar, Bool.or_eq_true, Bool.and_eq_true, decide_eq_true_eq]
    omega

theorem lowerChar_not_netEnd {c : Char} (h : isNetEnd c = false) :
    isNetEnd (lowerChar c) = false := by
  rcases lowerChar_toNat c with h' | ⟨h1, h2, _, _⟩
  · rw [h']; exact h
  · simp only [isNetEnd, Bool.or_eq_false_iff, decide_eq_false_iff_not]
    omega

theorem lowerChar_not_unsafe {c : Char} (h : isUnsafeChar c = false) :
    isUnsafeChar (lowerChar c) = false := by
  rcases lowerChar_toNat c with h' | ⟨h1, h2, _, _⟩
  · rw [h']; exact h
  · simp only [isUnsafeChar, Bool.or_eq_false_iff, decide_eq_false_iff_not]
    omega

theorem lowerChar_eq_bracket {c b : Char} (hb : b.toNat = 91 ∨ b.toNat = 93) :
    lowerChar c = b ↔ c = b := by
  constructor
  · intro h
    rcases lowerChar_toNat c with h' | ⟨h1, h2, _, _⟩
    · rw [← h']; exact h
    · exfalso
      rw [h] at h1 h2
      omega
  · intro h
    subst h
    rcases lowerChar_toNat c with h' | ⟨h1, h2, _, _⟩
    · exact h'
    · exfalso; omega

theorem asciiAlpha_facts {c : Char} (h : isAsciiAlpha c = true) :
    isSchemeChar c = true ∧ isC0orSpace c = false ∧ isUnsafeChar c = false
    ∧ c ≠ ':' := by
  simp only [isAsciiAlpha, Bool.or_eq_true, Bool.and_eq_true, decide_eq_true_eq] at h
  refine ⟨?_, ?_, ?_, ?_⟩
  · simp only [isSchemeChar, Bool.or_eq_true, Bool.and_eq_true, decide_eq_true_eq]
    omega
  · simp only [isC0orSpace, decide_eq_false_iff_not]
    omega
  · simp only [isUnsafeChar, Bool.or_eq_false_iff, decide_eq_false_iff_not]
    omega
  · exact ne_of_toNat_ne (by simpa using by omega)

theorem schemeChar_facts {c : Char} (h : isSchemeChar c = true) :
    isUnsafeChar c = false ∧ c ≠ ':' := by
  simp only [isSchemeChar, Bool.or_eq_true, Bool.and_eq_true, decide_eq_true_eq] at h
  constructor
  · simp only [isUnsafeChar, Bool.or_eq_false_iff, decide_eq_false_iff_not]
    omega
  · exact ne_of_toNat_ne (by simpa using by omega)

theorem wstrip_eq_self {s : List Char} (hne : s ≠ [])
    (h1 : isC0orSpace (s.headD 'x') = false) : wstrip s = s := by
  rw [wstrip]
  rcases s with _ | ⟨c, t⟩
  · exact absurd rfl hne
  · rw [List.dropWhile_cons, if_neg (by simpa using h1)]

theorem takeWhile_append_boundary {p : Char → Bool} :
    ∀ (a : List Char) {b : Char} (t : List Char), (∀ c ∈ a, p c = true) → p b = false →
    ((a ++ b :: t).takeWhile p = a ∧ (a ++ b :: t).dropWhile p = b :: t) := by
  intro a
  induction a with
  | nil =>
    intro b t _ hb
    constructor
    · rw [List.nil_append, List.takeWhile_cons, if_neg (by simp [hb])]
    · rw [List.nil_append, List.dropWhile_cons, if_neg (by simp [hb])]
  | cons x a' ih =>
    intro b t ha hb
    have hx : p x = true := ha x (List.mem_cons_self _ _)
    have ha' : ∀ c ∈ a', p c = true := fun c hc => ha c (List.mem_cons_of_mem _ hc)
    constructor
    · rw [List.cons_append, List.takeWhile_cons, if_pos (by simp [hx])]
      rw [(ih t ha' hb).1]
    · rw [List.cons_append, List.dropWhile_cons, if_pos (by simp [hx])]
      exact (ih t ha' hb).2

theorem findChar_append {c : Char} :
    ∀ (a : List Char) (t : List Char), (∀ x ∈ a, x ≠ c) →
      findChar c (a ++ c :: t) = some a.length := by
  intro a
  induction a with
  | nil =>
    intro t _
    rw [List.nil_append, findChar, if_pos rfl]
    rfl
  | cons x a' ih =>
    intro t ha
    rw [List.cons_append, findChar,
      if_neg (ha x (List.mem_cons_self _ _)),
      ih t (fun y hy => ha y (List.mem_cons_of_mem _ hy))]
    rfl

theorem drop_append_colon (s t : List Char) :
    (s ++ ':' :: t).drop (s.length + 1) = t := by
  have h1 : s ++ ':' :: t = (s ++ [':']) ++ t := by simp
  have h2 : (s ++ [':']).length = s.length + 1 := by simp
  rw [h1, ← h2, List.drop_left]

theorem char_eq_of_toNat_eq {c d : Char} (h : c.toNat = d.toNat) : c = d := by
  have h2 := Char.ofNat_toNat c
  rw [h, Char.ofNat_toNat] at h2
  exact h2.symm

theorem splitScheme_spec (u : List Char) :
    splitScheme u = ([], u) ∨
    (∃ i, 0 < i ∧ (u.take 1).all isAsciiAlpha = true ∧
      ((u.take i).drop 1).all isSchemeChar = true ∧
      splitScheme u = (pyLower (u.take i), u.drop (i + 1))) := by
  rcases hf : findChar ':' u with _ | i
  · left; simp [splitScheme, hf]
  · by_cases hc : 0 < i ∧ (u.take 1).all isAsciiAlpha = true
        ∧ ((u.take i).drop 1).all isSchemeChar = true
    · right
      refine ⟨i, hc.1, hc.2.1, hc.2.2, ?_⟩
      simp only [splitScheme, hf]
      rw [if_pos hc]
    · left
      simp only [splitScheme, hf]
      rw [if_neg hc]

theorem mem_sanitizeUrl_not_unsafe {x : Char} {u : List Char}
    (h : x ∈ sanitizeUrl u) : isUnsafeChar x = false := by
  rw [sanitizeUrl] at h
  have := List.of_mem_filter h
  simpa using this

theorem splitScheme_fst_inv (u : List Char) :
    pyLower (splitScheme u).1 = (splitScheme u).1
    ∧ ((splitScheme u).1 ≠ [] →
        ((splitScheme u).1.take 1).all isAsciiAlpha = true
        ∧ ∀ c ∈ (splitScheme u).1.drop 1, isSchemeChar c = true) := by
  rcases splitScheme_spec u with h | ⟨i, hi, ha, hs, h⟩
  · rw [h]; exact ⟨rfl, fun hne => absurd rfl hne⟩
  · rw [h]
    dsimp only
    refine ⟨pyLower_idem _, fun _ => ⟨?_, ?_⟩⟩
    · have h1 : (pyLower (u.take i)).take 1 = pyLower ((u.take i).take 1) := by
        simp [pyLower, List.map_take]
      have h2 : (u.take i).take 1 = u.take 1 := by
        rw [List.take_take]
        congr 1
        omega
      rw [h1, h2]
      rw [List.all_eq_true] at ha ⊢
      intro c hc
      rcases List.mem_map.mp hc with ⟨d, hd, rfl⟩
      exact lowerChar_asciiAlpha (ha d hd)
    · intro c hc
      have h1 : (pyLower (u.take i)).drop 1 = pyLower ((u.take i).drop 1) := by
        simp [pyLower, List.map_drop]
      rw [h1] at hc
      rcases List.mem_map.mp hc with ⟨d, hd, rfl⟩
      rw [List.all_eq_true] at hs
      exact lowerChar_schemeChar (hs d hd)

theorem pyUrlparse_inv {url : List Char} {p : UrlParts}
    (h : pyUrlparse url = some p) : ParseInv p := by
  rw [pyUrlparse] at h
  rcases hsp : splitScheme (sanitizeUrl url) with ⟨sch, u1⟩
  rw [hsp] at h
  dsimp only at h
  have hscheme := splitScheme_fst_inv (sanitizeUrl url)
  rw [hsp] at hscheme
  dsimp only at hscheme
  have hu1 : ∀ x ∈ u1, x ∈ sanitizeUrl url := by
    rcases splitScheme_spec (sanitizeUrl url) with hcase | ⟨i, _, _, _, hcase⟩ <;>
      rw [hsp] at hcase
    · injection hcase with h1 h2
      intro x hx; rw [h2] at hx; exact hx
    · injection hcase with h1 h2
      intro x hx; rw [h2] at hx; exact List.mem_of_mem_drop hx
  by_cases hnl : u1.take 2 = ['/', '/']
  · rw [if_pos hnl] at h
    dsimp only at h
    by_cases hbr : ('[' ∈ (u1.drop 2).takeWhile (fun c => !isNetEnd c)
          ∧ ']' ∉ (u1.drop 2).takeWhile (fun c => !isNetEnd c))
        ∨ (']' ∈ (u1.drop 2).takeWhile (fun c => !isNetEnd c)
          ∧ '[' ∉ (u1.drop 2).takeWhile (fun c => !isNetEnd c))
    · rw [if_pos hbr] at h; simp at h
    · rw [if_neg hbr] at h
      rw [Option.some_inj] at h
      subst h
      refine ⟨hscheme.1, hscheme.2, ?_, ?_, ?_, ?_, ?_, ?_, hbr⟩
      · intro c hc
        have := List.mem_takeWhile_imp hc
        simpa using this
      · intro c hc
        have hcu : c ∈ u1.drop 2 := (List.takeWhile_sublist _).mem hc
        exact mem_sanitizeUrl_not_unsafe (hu1 c (List.mem_of_mem_drop hcu))
      · intro hm
        have h1 := mem_ite_dropParams hm
        have h2 := mem_takeUntilChar h1
        have h3 := mem_takeUntilChar h2.1
        exact h3.2 rfl
      · intro hm
        have h1 := mem_ite_dropParams hm
        exact (mem_takeUntilChar h1).2 rfl
      · intro c hc
        have h1 := mem_ite_dropParams hc
        have h2 := (mem_takeUntilChar h1).1
        have h3 := (mem_takeUntilChar h2).1
        have h4 : c ∈ u1.drop 2 := (List.dropWhile_sublist _).mem h3
        exact mem_sanitizeUrl_not_unsafe (hu1 c (List.mem_of_mem_drop h4))
      · intro _
        rcases hu2c : (u1.drop 2).dropWhile (fun c => !isNetEnd c) with _ | ⟨x, t⟩
        · left; simp [takeUntilChar, dropParams]
        · have hx : isNetEnd x = true := by
            have := dropWhile_head_false hu2c
            simpa using this
          by_cases hxh : x = '#'
          · left; subst hxh
            rw [takeUntilChar, if_pos rfl]
            simp [takeUntilChar, dropParams]
          · by_cases hxq : x = '?'
            · left; subst hxq
              rw [takeUntilChar, if_neg (show ¬('?' = '#') by decide)]
              rw [takeUntilChar, if_pos rfl]
              simp [dropParams]
            · have hxs : x = '/' := by
                simp only [isNetEnd, Bool.or_eq_true, decide_eq_true_eq] at hx
                rcases hx with (h47 | h63) | h35
                · exact char_eq_of_toNat_eq (by rw [h47]; rfl)
                · exact absurd (char_eq_of_toNat_eq (by rw [h63]; rfl)) hxq
                · exact absurd (char_eq_of_toNat_eq (by rw [h35]; rfl)) hxh
              subst hxs
              right
              rw [takeUntilChar, if_neg (show ¬('/' = '#') by decide)]
              rw [takeUntilChar, if_neg (show ¬('/' = '?') by decide)]
              by_cases hup : sch ∈ uses_params
              · rw [if_pos hup]
                exact dropParams_head.2
              · rw [if_neg hup]
                rfl
  · rw [if_neg hnl] at h
    dsimp only at h
    rw [if_neg (by simp)] at h
    rw [Option.some_inj] at h
    subst h
    refine ⟨hscheme.1, hscheme.2, ?_, ?_, ?_, ?_, ?_, ?_, by simp⟩
    · intro c hc; simp at hc
    · intro c hc; simp at hc
    · intro hm
      have h1 := mem_ite_dropParams hm
      have h2 := mem_takeUntilChar h1
      have h3 := mem_takeUntilChar h2.1
      exact h3.2 rfl
    · intro hm
      have h1 := mem_ite_dropParams hm
      exact (mem_takeUntilChar h1).2 rfl
    · intro c hc
      have h1 := mem_ite_dropParams hc
      have h2 := (mem_takeUntilChar h1).1
      have h3 := (mem_takeUntilChar h2).1
      exact mem_sanitizeUrl_not_unsafe (hu1 c h3)
    · intro hne; exact absurd rfl hne

theorem isPrefixOf_exists : ∀ {a l : List Char}, a.isPrefixOf l = true → ∃ t, l = a ++ t := by
  intro a
  induction a with
  | nil => intro l _; exact ⟨l, rfl⟩
  | cons x a' ih =>
    intro l h
    cases l with
    | nil => simp [List.isPrefixOf] at h
    | cons y l' =>
      have h' : (x == y) = true ∧ a'.isPrefixOf l' = true := by
        simpa [List.isPrefixOf] using h
      obtain ⟨t, ht⟩ := ih h'.2
      exact ⟨t, by rw [ht, eq_of_beq h'.1]; rfl⟩

theorem bracket_mem_pyLower {nl : List Char} {b : Char}
    (hb : b.toNat = 91 ∨ b.toNat = 93) : b ∈ pyLower nl ↔ b ∈ nl := by
  simp only [pyLower, List.mem_map]
  constructor
  · rintro ⟨c, hc, he⟩
    rw [(lowerChar_eq_bracket hb).mp he] at hc; exact hc
  · intro hc; exact ⟨b, hc, (lowerChar_eq_bracket hb).mpr rfl⟩

theorem bracket_mem_normNetloc {nl : List Char} {b : Char}
    (hb : b.toNat = 91 ∨ b.toNat = 93) : b ∈ normNetloc nl ↔ b ∈ nl := by
  have hw : b ∉ "www.".toList := by
    intro hm
    have hm' : b = 'w' ∨ b = '.' := by simpa using hm
    rcases hm' with rfl | rfl
    · rcases hb with h | h
      · exact absurd h (by decide)
      · exact absurd h (by decide)
    · rcases hb with h | h
      · exact absurd h (by decide)
      · exact absurd h (by decide)
  rw [normNetloc]
  by_cases hpre : ("www.".toList).isPrefixOf (pyLower nl) = true
  · rw [if_pos hpre]
    obtain ⟨t, ht⟩ := isPrefixOf_exists hpre
    have hdrop : (pyLower nl).drop 4 = t := by
      have h4 : ("www.".toList).length = 4 := rfl
      rw [ht, ← h4, List.drop_left]
    have h1 : b ∈ nl ↔ b ∈ pyLower nl := (bracket_mem_pyLower hb).symm
    rw [hdrop, h1, ht]
    constructor
    · intro hbt
      exact List.mem_append.mpr (Or.inr hbt)
    · intro hbm
      rcases List.mem_append.mp hbm with hbw | hbt
      · exact absurd hbw hw
      · exact hbt
  · rw [if_neg hpre]
    exact bracket_mem_pyLower hb

theorem mem_normNetloc {nl : List Char} {c : Char} (h : c ∈ normNetloc nl) :
    ∃ d ∈ nl, c = lowerChar d := by
  rw [normNetloc] at h
  have hmem : c ∈ pyLower nl := by
    by_cases hpre : ("www.".toList).isPrefixOf (pyLower nl) = true
    · rw [if_pos hpre] at h
      exact List.mem_of_mem_drop h
    · rw [if_neg hpre] at h
      exact h
  rcases List.mem_map.mp hmem with ⟨d, hd, he⟩
  exact ⟨d, hd, he.symm⟩

theorem pyLower_normNetloc (nl : List Char) :
    pyLower (normNetloc nl) = normNetloc nl := by
  rw [normNetloc]
  by_cases hpre : ("www.".toList).isPrefixOf (pyLower nl) = true
  · rw [if_pos hpre]
    have hcomm : pyLower ((pyLower nl).drop 4) = (pyLower (pyLower nl)).drop 4 := by
      simp [pyLower, List.map_drop]
    rw [hcomm, pyLower_idem]
  · rw [if_neg hpre]
    exact pyLower_idem nl

set_option maxHeartbeats 1000000 in
/-- Re-parsing a string of the shape `scheme://netloc + path` built from
well-behaved components recovers exactly those components (with the scheme
lower-cased, as `urlsplit` always does). -/
theorem parse_buildUrl (scheme netloc path : List Char)
    (hs : scheme ≠ [])
    (hsa : (scheme.take 1).all isAsciiAlpha = true)
    (hsc : ∀ c ∈ scheme.drop 1, isSchemeChar c = true)
    (hnet : ∀ c ∈ netloc, isNetEnd c = false)
    (hnetu : ∀ c ∈ netloc, isUnsafeChar c = false)
    (hpne : path ≠ [])
    (hpshape : path.take 1 = ['/'])
    (hph : '#' ∉ path) (hpq : '?' ∉ path)
    (hpu : ∀ c ∈ path, isUnsafeChar c = false)
    (hsemi : pyLower scheme ∈ uses_params →
      ∀ a b, splitLastSlash path = some (a, b) → ';' ∉ b)
    (hbr : ¬(('[' ∈ netloc ∧ ']' ∉ netloc) ∨ (']' ∈ netloc ∧ '[' ∉ netloc))) :
    pyUrlparse (buildUrl scheme netloc path) = some ⟨pyLower scheme, netloc, path⟩ := by
  rcases hschd : scheme with _ | ⟨c0, s'⟩
  · exact absurd hschd hs
  subst hschd
  have hc0 : isAsciiAlpha c0 = true := by simpa using hsa
  have hdrop1 : (c0 :: s').drop 1 = s' := rfl
  rcases hpd : path with _ | ⟨p0, pt⟩
  · exact absurd hpd hpne
  subst hpd
  have hp0 : p0 = '/' := by simpa using hpshape
  subst hp0
  -- facts about every character of the reassembled string
  have hschval : ∀ c ∈ c0 :: s', isUnsafeChar c = false ∧ c ≠ ':' := by
    intro c hc
    rcases List.mem_cons.mp hc with rfl | hc'
    · exact ⟨(asciiAlpha_facts hc0).2.2.1, (asciiAlpha_facts hc0).2.2.2⟩
    · exact schemeChar_facts (hsc c (by simpa [hdrop1] using hc'))
  -- sanitisation leaves the string unchanged
  have hne : buildUrl (c0 :: s') netloc ('/' :: pt) ≠ [] := by
    simp [buildUrl]
  have hsan : sanitizeUrl (buildUrl (c0 :: s') netloc ('/' :: pt))
      = buildUrl (c0 :: s') netloc ('/' :: pt) := by
    rw [sanitizeUrl]
    have hhead : isC0orSpace ((buildUrl (c0 :: s') netloc ('/' :: pt)).headD 'x') = false := by
      simp only [buildUrl, List.cons_append, List.headD_cons]
      exact (asciiAlpha_facts hc0).2.1
    rw [wstrip_eq_self hne hhead]
    apply List.filter_eq_self.mpr
    intro a ha
    have ha' : a = c0 ∨ a ∈ s' ∨ a = ':' ∨ a = '/' ∨ a ∈ netloc ∨ a ∈ pt := by
      simp only [buildUrl, List.cons_append, List.mem_cons, List.mem_append] at ha
      tauto
    rcases ha' with rfl | ha' | rfl | rfl | ha' | ha'
    · simpa using (hschval a (List.mem_cons_self _ _)).1
    · simpa using (hschval a (List.mem_cons_of_mem _ ha')).1
    · decide
    · decide
    · simpa using hnetu a ha'
    · simpa using hpu a (List.mem_cons_of_mem _ ha')
  -- the scheme is recognised and split off
  have hfind : findChar ':' ((c0 :: s') ++ ':' :: ('/' :: '/' :: netloc ++ '/' :: pt))
      = some (c0 :: s').length :=
    findChar_append (c0 :: s') _ (fun x hx => (hschval x hx).2)
  have hss : splitScheme (buildUrl (c0 :: s') netloc ('/' :: pt))
      = (pyLower (c0 :: s'), '/' :: '/' :: netloc ++ '/' :: pt) := by
    have hb : buildUrl (c0 :: s') netloc ('/' :: pt)
        = (c0 :: s') ++ ':' :: ('/' :: '/' :: netloc ++ '/' :: pt) := by
      simp [buildUrl]
    rw [hb]
    simp only [splitScheme, hfind]
    rw [if_pos ?hcond]
    case hcond =>
      refine ⟨by simp, ?_, ?_⟩
      · rw [show ((c0 :: s') ++ ':' :: ('/' :: '/' :: netloc ++ '/' :: pt)).take 1
            = [c0] by simp]
        simpa using hc0
      · rw [List.take_left]
        rw [List.all_eq_true]
        intro c hc
        exact hsc c hc
    rw [List.take_left, drop_append_colon]
  -- netloc and path are recovered
  have hsplit2 := @takeWhile_append_boundary (fun c => !isNetEnd c) netloc '/' pt
    (fun c hc => by simp [hnet c hc]) (by decide)
  rw [pyUrlparse, hsan, hss]
  dsimp only
  have htake : ('/' :: '/' :: netloc ++ '/' :: pt).take 2 = ['/', '/'] := rfl
  rw [if_pos htake]
  dsimp only
  rw [show ('/' :: '/' :: netloc ++ '/' :: pt).drop 2 = netloc ++ '/' :: pt from rfl]
  rw [hsplit2.1, hsplit2.2]
  rw [if_neg hbr]
  rw [takeUntilChar_of_not_mem hph, takeUntilChar_of_not_mem hpq]
  by_cases hup : pyLower (c0 :: s') ∈ uses_params
  · rw [if_pos hup]
    have hdp : dropParams ('/' :: pt) = '/' :: pt := by
      rw [dropParams]
      by_cases hsemi2 : ';' ∈ '/' :: pt
      · rw [if_pos hsemi2]
        rcases hsls : splitLastSlash ('/' :: pt) with _ | ⟨a, b⟩
        · exact absurd (splitLastSlash_none hsls) (by simp)
        · show (if ';' ∈ b then a ++ '/' :: takeUntilChar ';' b else '/' :: pt) = '/' :: pt
          rw [if_neg (hsemi hup a b hsls)]
      · rw [if_neg hsemi2]
    rw [hdp]
  · rw [if_neg hup]

/-- C2 (amended): `_normalize_url` is idempotent on every URL whose parse has
a nonempty scheme and netloc, whose normalised host does not again start with
`www.`, and whose normalised path is nonempty and — when the normalised scheme
is one of `urllib`'s params-carrying schemes, as `http`/`https` always are —
keeps no `;` in its final segment. -/
theorem normalize_idempotent_on (u : List Char) (p : UrlParts)
    (hp : pyUrlparse u = some p)
    (h1 : p.scheme ≠ [])
    (h2 : p.netloc ≠ [])
    (h3 : ("www.".toList).isPrefixOf (normNetloc p.netloc) = false)
    (h4 : normPath p.path ≠ [])
    (h5 : normScheme p.scheme ∈ uses_params →
      ∀ a b, splitLastSlash (normPath p.path) = some (a, b) → ';' ∉ b) :
    ∃ v, pyNormalize u = some v ∧ pyNormalize v = some v := by
  have inv := pyUrlparse_inv hp
  refine ⟨buildUrl (normScheme p.scheme) (normNetloc p.netloc) (normPath p.path), ?_, ?_⟩
  · rw [pyNormalize, hp]
  -- facts about the normalised scheme
  have hSfacts : normScheme p.scheme ≠ []
      ∧ ((normScheme p.scheme).take 1).all isAsciiAlpha = true
      ∧ (∀ c ∈ (normScheme p.scheme).drop 1, isSchemeChar c = true)
      ∧ pyLower (normScheme p.scheme) = normScheme p.scheme
      ∧ normScheme (normScheme p.scheme) = normScheme p.scheme := by
    by_cases hsch : p.scheme = "http".toList ∨ p.scheme = "https".toList
    · rw [normScheme, if_pos hsch]
      refine ⟨by decide, by decide, by decide, by decide, by decide⟩
    · rw [normScheme, if_neg hsch]
      obtain ⟨ha, hc⟩ := inv.schemeShape h1
      exact ⟨h1, ha, hc, inv.schemeLower, by rw [normScheme, if_neg hsch]⟩
  obtain ⟨hSne, hSa, hSc, hSlow, hSnorm⟩ := hSfacts
  -- facts about the normalised netloc
  have hNnet : ∀ c ∈ normNetloc p.netloc, isNetEnd c = false := by
    intro c hc
    obtain ⟨d, hd, rfl⟩ := mem_normNetloc hc
    exact lowerChar_not_netEnd (inv.netlocClean d hd)
  have hNuns : ∀ c ∈ normNetloc p.netloc, isUnsafeChar c = false := by
    intro c hc
    obtain ⟨d, hd, rfl⟩ := mem_normNetloc hc
    exact lowerChar_not_unsafe (inv.netlocNoUnsafe d hd)
  have hNbr : ¬(('[' ∈ normNetloc p.netloc ∧ ']' ∉ normNetloc p.netloc)
      ∨ (']' ∈ normNetloc p.netloc ∧ '[' ∉ normNetloc p.netloc)) := by
    have hlb := @bracket_mem_normNetloc p.netloc '[' (Or.inl (by decide))
    have hrb := @bracket_mem_normNetloc p.netloc ']' (Or.inr (by decide))
    rw [hlb, hrb]
    exact inv.brackets
  have hNN : normNetloc (normNetloc p.netloc) = normNetloc p.netloc := by
    rw [normNetloc, pyLower_normNetloc]
    rw [if_neg (by rw [h3]; decide)]
  -- facts about the normalised path
  have hPcase : normPath p.path = ['/'] ∨
      (normPath p.path = rstripSlash p.path ∧ p.path ≠ [] ∧ p.path ≠ ['/']) := by
    rw [normPath]
    by_cases hc : p.path ≠ [] ∧ p.path ≠ ['/']
    · rw [if_pos hc]; exact Or.inr ⟨rfl, hc⟩
    · rw [if_neg hc]
      by_cases hnil : p.path = []
      · rw [if_pos hnil]; exact Or.inl rfl
      · rw [if_neg hnil]
        have hpv : p.path = ['/'] := by tauto
        exact Or.inl hpv
  have hPshape : (normPath p.path).take 1 = ['/'] := by
    rcases hPcase with hone | ⟨heq, hc⟩
    · rw [hone]; rfl
    · rw [heq]
      rw [heq] at h4
      rw [rstripSlash_take_one h4]
      rcases inv.pathShape h2 with hnil | hsl
      · exact absurd hnil hc.1
      · exact hsl
  have hPmem : ∀ x ∈ normPath p.path, x ∈ p.path ∨ x = '/' := by
    intro x hx
    rcases hPcase with hone | ⟨heq, _⟩
    · rw [hone] at hx
      right; simpa using hx
    · rw [heq] at hx
      exact Or.inl (mem_rstripSlash hx)
  have hPh : '#' ∉ normPath p.path := by
    intro hm
    rcases hPmem _ hm with h | h
    · exact inv.pathNoHash h
    · exact absurd h (by decide)
  have hPq : '?' ∉ normPath p.path := by
    intro hm
    rcases hPmem _ hm with h | h
    · exact inv.pathNoQm h
    · exact absurd h (by decide)
  have hPu : ∀ c ∈ normPath p.path, isUnsafeChar c = false := by
    intro c hc
    rcases hPmem c hc with h | rfl
    · exact inv.pathNoUnsafe c h
    · decide
  have hPP : normPath (normPath p.path) = normPath p.path := by
    rcases hPcase with hone | ⟨heq, _⟩
    · rw [hone]; rfl
    · rw [heq] at h4 ⊢
      have hlast := rstripSlash_getLast h4
      have hne1 : rstripSlash p.path ≠ ['/'] := by
        intro hbad
        rw [hbad] at hlast
        exact hlast rfl
      rw [normPath, if_pos ⟨h4, hne1⟩]
      exact rstripSlash_idem p.path
  -- reassemble
  have hparse := parse_buildUrl (normScheme p.scheme) (normNetloc p.netloc)
    (normPath p.path) hSne hSa hSc hNnet hNuns h4 hPshape hPh hPq hPu
    (fun hup => h5 (hSlow ▸ hup)) hNbr
  rw [pyNormalize, hparse]
  dsimp only
  rw [hSlow, hSnorm, hNN, hPP]

/-- Witness for the amended idempotence theorem at
`http://www.Example.com/Foo/`. -/
theorem normalize_idempotent_on_witness :
    ∃ v, pyNormalize ("http://www.Example.com/Foo/".toList) = some v
      ∧ pyNormalize v = some v := by
  apply normalize_idempotent_on ("http://www.Example.com/Foo/".toList)
    ⟨"http".toList, "www.Example.com".toList, "/Foo/".toList⟩
  · decide
  · decide
  · decide
  · decide
  · decide
  · intro _ a b h
    have hsl : splitLastSlash (normPath ("/Foo/".toList)) = some ([], "Foo".toList) := by
      decide
    rw [hsl] at h
    have h2 := Option.some_inj.mp h
    have hb : b = "Foo".toList := (congrArg Prod.snd h2).symm
    rw [hb]
    decide
